import Mathlib

/-!
Verification of the Wiggle voice-call core: the signaling-server room
directory (signaling-server/server.js), the reconnecting signaling client
(SignalingClient), and the per-peer WebRTC connection manager
(WebRTCManager.ts, AudioManager).  Each definition below is a shallow
embedding of the corresponding JavaScript/TypeScript function; JS Maps are
modelled as association lists keyed by strings (insertion order preserved,
no duplicate keys for reachable states), JS Sets as duplicate-free lists in
insertion order, and the per-connection WebSocket as an open/closed flag on
the participant record.
-/

namespace Wiggle

/-! ### Association lists modelling JS `Map`, and lists modelling JS `Set` -/

/-- `Map.get`: first binding for the key, if any. -/
def alGet {κ α : Type} [DecidableEq κ] : List (κ × α) → κ → Option α
  | [], _ => none
  | (k, v) :: rest, k' => if k = k' then some v else alGet rest k'

/-- `Map.set`: update the binding in place if present, else append. -/
def alSet {κ α : Type} [DecidableEq κ] : List (κ × α) → κ → α → List (κ × α)
  | [], k, v => [(k, v)]
  | (k0, v0) :: rest, k, v =>
    if k0 = k then (k, v) :: rest else (k0, v0) :: alSet rest k v

/-- `Map.delete`: drop the binding for the key (a JS Map never holds
duplicate keys, so removing every binding for the key is the same map). -/
def alErase {κ α : Type} [DecidableEq κ] : List (κ × α) → κ → List (κ × α)
  | [], _ => []
  | (k0, v0) :: rest, k =>
    if k0 = k then alErase rest k else (k0, v0) :: alErase rest k

/-- `Set.add`: append if not already present. -/
def setAdd (l : List String) (x : String) : List String :=
  if x ∈ l then l else l ++ [x]

/-- `Set.delete`: remove the element. -/
def setDelete (l : List String) (x : String) : List String :=
  l.filter (fun y => y ≠ x)

theorem alGet_alSet_self {κ α : Type} [DecidableEq κ] (l : List (κ × α)) (k : κ) (v : α) :
    alGet (alSet l k v) k = some v := by
  induction l with
  | nil => simp [alGet, alSet]
  | cons hd tl ih =>
    obtain ⟨k0, v0⟩ := hd
    by_cases h : k0 = k
    · simp [alSet, alGet, h]
    · simp [alSet, alGet, h, ih]

theorem alGet_alSet_ne {κ α : Type} [DecidableEq κ] (l : List (κ × α)) (k k' : κ) (v : α)
    (h : k ≠ k') : alGet (alSet l k v) k' = alGet l k' := by
  induction l with
  | nil => simp [alGet, alSet, h]
  | cons hd tl ih =>
    obtain ⟨k0, v0⟩ := hd
    by_cases h0 : k0 = k
    · subst h0
      simp [alSet, alGet, h]
    · simp only [alSet, if_neg h0]
      by_cases h1 : k0 = k'
      · simp [alGet, h1]
      · simp [alGet, h1, ih]

theorem alGet_alErase_self {κ α : Type} [DecidableEq κ] (l : List (κ × α)) (k : κ) :
    alGet (alErase l k) k = none := by
  induction l with
  | nil => simp [alGet, alErase]
  | cons hd tl ih =>
    obtain ⟨k0, v0⟩ := hd
    by_cases h : k0 = k
    · simpa [alErase, h] using ih
    · simpa [alErase, alGet, h] using ih

theorem alGet_alErase_ne {κ α : Type} [DecidableEq κ] (l : List (κ × α)) (k k' : κ)
    (h : k ≠ k') : alGet (alErase l k) k' = alGet l k' := by
  induction l with
  | nil => simp [alGet, alErase]
  | cons hd tl ih =>
    obtain ⟨k0, v0⟩ := hd
    by_cases h0 : k0 = k
    · subst h0
      simp [alErase, alGet, h, ih]
    · by_cases h1 : k0 = k'
      · simp [alErase, alGet, h0, h1, Ne.symm h]
      · simp [alErase, alGet, h0, h1, ih]

theorem alGet_append {κ α : Type} [DecidableEq κ] (l l' : List (κ × α)) (k : κ) :
    alGet (l ++ l') k = ((alGet l k).rec (alGet l' k) (fun v => some v)) := by
  induction l with
  | nil => simp [alGet]
  | cons hd tl ih =>
    obtain ⟨k0, v0⟩ := hd
    by_cases h : k0 = k
    · simp [alGet, h]
    · simp [alGet, h, ih]

theorem alGet_eq_none_of_not_mem {κ α : Type} [DecidableEq κ] (l : List (κ × α)) (k : κ)
    (h : ∀ v, (k, v) ∉ l) : alGet l k = none := by
  induction l with
  | nil => rfl
  | cons hd tl ih =>
    obtain ⟨k0, v0⟩ := hd
    by_cases h0 : k0 = k
    · exact absurd (by simp [h0]) (h v0)
    · simp only [alGet, if_neg h0]
      exact ih (fun v hv => h v (List.mem_cons_of_mem _ hv))

theorem mem_setAdd {l : List String} {x y : String} :
    y ∈ setAdd l x ↔ y ∈ l ∨ y = x := by
  unfold setAdd
  by_cases h : x ∈ l
  · simp only [if_pos h]
    constructor
    · exact Or.inl
    · rintro (hy | rfl)
      · exact hy
      · exact h
  · simp [if_neg h]

theorem nodup_setAdd {l : List String} (h : l.Nodup) (x : String) : (setAdd l x).Nodup := by
  unfold setAdd
  by_cases hx : x ∈ l
  · simpa [hx]
  · simp only [if_neg hx]
    refine List.Nodup.append h (List.nodup_singleton x) ?_
    intro a ha hax
    rw [List.mem_singleton] at hax
    subst hax
    exact hx ha

theorem mem_setDelete {l : List String} {x y : String} :
    y ∈ setDelete l x ↔ y ∈ l ∧ y ≠ x := by
  simp [setDelete]

theorem setDelete_eq_nil_iff {l : List String} {x : String} :
    setDelete l x = [] ↔ ∀ y ∈ l, y = x := by
  simp [setDelete, List.filter_eq_nil_iff]

/-! ### Room Directory: signaling-server/server.js

State and message types.  A participant record mirrors the JS object
`{ ws, roomId, nickname }`; the WebSocket handle is modelled by its
only observable used by the server, `readyState === OPEN`. -/

structure SParticipant where
  wsOpen : Bool
  roomId : Option String
  nickname : String
deriving DecidableEq

structure SState where
  rooms : List (String × List String)
  participants : List (String × SParticipant)
deriving DecidableEq

/-- Server-to-client messages (section 6 of the wire protocol). -/
inductive ServerMsg
  | connected (participantId : String)
  | roomJoined (roomId participantId : String)
  | roomLeft (roomId : String)
  | participantJoined (participantId nickname : String)
  | participantLeft (participantId : String)
  | existingParticipants (participants : List (String × String))
  | signalMsg (src : String) (payload : String)
  | errorMsg (message : String)
deriving DecidableEq

/-- An output of the server: recipient participant id paired with the
message written to its socket. -/
abbrev SOut := String × ServerMsg

/-- `sendMessage(ws, message)`: writes only when the socket is open. -/
def sendMessage (wsOpen : Bool) (pid : String) (m : ServerMsg) : List SOut :=
  if wsOpen then [(pid, m)] else []

/-- `broadcastToRoom(roomId, message, excludeParticipantId)`. -/
def broadcastToRoom (s : SState) (roomId : String) (m : ServerMsg)
    (excl : Option String) : List SOut :=
  match alGet s.rooms roomId with
  | none => []
  | some mems =>
    mems.filterMap (fun pid =>
      if excl = some pid then none
      else
        match alGet s.participants pid with
        | some p => if p.wsOpen then some (pid, m) else none
        | none => none)

/-- `handleLeaveRoom(participantId)`. -/
def handleLeaveRoom (s : SState) (pid : String) : SState × List SOut :=
  match alGet s.participants pid with
  | none => (s, [])
  | some p =>
    match p.roomId with
    | none => (s, [])
    | some rid =>
      let roomsAndOut : List (String × List String) × List SOut :=
        match alGet s.rooms rid with
        | none => (s.rooms, [])
        | some mems =>
          let mems' := setDelete mems pid
          if mems' = [] then (alErase s.rooms rid, [])
          else
            let rooms' := alSet s.rooms rid mems'
            (rooms',
             broadcastToRoom ⟨rooms', s.participants⟩ rid (.participantLeft pid) none)
      let participants' := alSet s.participants pid { p with roomId := none }
      (⟨roomsAndOut.1, participants'⟩,
       roomsAndOut.2 ++ sendMessage p.wsOpen pid (.roomLeft rid))

/-- JS truthiness of an optional string: `undefined` and the empty string
are falsy. -/
def strTruthy : Option String → Bool
  | none => false
  | some s => s ≠ ""

/-- `nickname || "Anonymous"`. -/
def nickOr (nickname : Option String) : String :=
  match nickname with
  | some n => if n = "" then "Anonymous" else n
  | none => "Anonymous"

/-- `handleJoinRoom(participantId, message)` with the destructured fields
`roomId` and `nickname` of the message (absent fields are `none`). -/
def handleJoinRoom (s : SState) (pid : String) (roomId? : Option String)
    (nickname? : Option String) : SState × List SOut :=
  match alGet s.participants pid with
  | none => (s, [])
  | some p0 =>
    if strTruthy roomId? = false then (s, [])
    else
      match roomId? with
      | none => (s, [])
      | some rid =>
        let stepLeave := if p0.roomId.isSome then handleLeaveRoom s pid else (s, [])
        let s1 := stepLeave.1
        match alGet s1.participants pid with
        | none => (s1, stepLeave.2)
        | some p1 =>
          let rooms1 :=
            match alGet s1.rooms rid with
            | some _ => s1.rooms
            | none => alSet s1.rooms rid []
          let mems := (alGet rooms1 rid).getD []
          let nick := nickOr nickname?
          let p2 : SParticipant := { p1 with roomId := some rid, nickname := nick }
          let participants2 := alSet s1.participants pid p2
          let rooms2 := alSet rooms1 rid (setAdd mems pid)
          let s2 : SState := ⟨rooms2, participants2⟩
          let outJoined := sendMessage p2.wsOpen pid (.roomJoined rid pid)
          let outBroadcast := broadcastToRoom s2 rid (.participantJoined pid nick) (some pid)
          let roster := ((setAdd mems pid).filter (fun q => q ≠ pid)).map (fun q =>
            (q, match alGet participants2 q with
                | some pq => if pq.nickname = "" then "Anonymous" else pq.nickname
                | none => "Anonymous"))
          let outRoster :=
            if roster.length > 0 then sendMessage p2.wsOpen pid (.existingParticipants roster)
            else []
          (s2, stepLeave.2 ++ outJoined ++ outBroadcast ++ outRoster)

/-- `handleSignal(participantId, message)` with the destructured fields
`to` and `signal`; the payload is relayed opaque. -/
def handleSignal (s : SState) (pid : String) (to? : Option String)
    (payload : String) : SState × List SOut :=
  match to? with
  | none => (s, [])
  | some t =>
    match alGet s.participants t with
    | none => (s, [])
    | some tp => (s, sendMessage tp.wsOpen t (.signalMsg pid payload))

/-- Client-to-server messages after JSON parsing, keeping only the fields
the server reads; a recognized `type` with a missing field carries `none`,
and any unrecognized `type` is `otherType`. -/
inductive ClientMsg
  | joinRoom (roomId? : Option String) (nickname? : Option String)
  | leaveRoom
  | signalTo (to? : Option String) (payload : String)
  | otherType (t : String)
deriving DecidableEq

/-- `handleMessage(participantId, message)`. -/
def handleMessage (s : SState) (pid : String) (m : ClientMsg) : SState × List SOut :=
  match alGet s.participants pid with
  | none => (s, [])
  | some p =>
    match m with
    | .joinRoom rid nick => handleJoinRoom s pid rid nick
    | .leaveRoom => handleLeaveRoom s pid
    | .signalTo t payload => handleSignal s pid t payload
    | .otherType t => (s, sendMessage p.wsOpen pid (.errorMsg ("Unknown message type: " ++ t)))

/-- A raw frame on the socket: either it parses to a message or it does
not (the `JSON.parse` try/catch). -/
inductive RawMsg
  | parsed (m : ClientMsg)
  | malformed
deriving DecidableEq

/-- The `ws.on("message")` handler: parse failure answers with an error on
the same connection. -/
def onMessage (s : SState) (pid : String) (r : RawMsg) : SState × List SOut :=
  match r with
  | .malformed =>
    match alGet s.participants pid with
    | some p => (s, sendMessage p.wsOpen pid (.errorMsg "Invalid message format"))
    | none => (s, [])
  | .parsed m => handleMessage s pid m

/-- `handleDisconnection(participantId)`. -/
def handleDisconnection (s : SState) (pid : String) : SState × List SOut :=
  let stepLeave :=
    match alGet s.participants pid with
    | some p => if p.roomId.isSome then handleLeaveRoom s pid else (s, [])
    | none => (s, [])
  (⟨stepLeave.1.rooms, alErase stepLeave.1.participants pid⟩, stepLeave.2)

/-- External events driving the directory: a new connection (with the
freshly generated uuid), an inbound frame, or a socket close. -/
inductive DirEvent
  | connect (pid : String)
  | message (pid : String) (r : RawMsg)
  | closeConn (pid : String)
deriving DecidableEq

/-- One event processed by the server.  On `connect` the record
`{ ws, roomId: null, nickname: "Anonymous" }` is stored and the welcome
message sent; on close the socket is no longer open when
`handleDisconnection` runs. -/
def serverStep (s : SState) (e : DirEvent) : SState × List SOut :=
  match e with
  | .connect pid =>
    (⟨s.rooms, alSet s.participants pid ⟨true, none, "Anonymous"⟩⟩,
     [(pid, .connected pid)])
  | .message pid r => onMessage s pid r
  | .closeConn pid =>
    let s1 : SState :=
      match alGet s.participants pid with
      | some p => ⟨s.rooms, alSet s.participants pid { p with wsOpen := false }⟩
      | none => s
    handleDisconnection s1 pid

def serverRun : SState → List DirEvent → SState × List SOut
  | s, [] => (s, [])
  | s, e :: es =>
    let step := serverStep s e
    let rest := serverRun step.1 es
    (rest.1, step.2 ++ rest.2)

def initState : SState := ⟨[], []⟩

/-- `uuidv4()` freshness: a connect event never reuses a live id. -/
def freshOk (s : SState) : DirEvent → Bool
  | .connect pid => (alGet s.participants pid).isNone
  | _ => true

def freshRun : SState → List DirEvent → Bool
  | _, [] => true
  | s, e :: es => freshOk s e && freshRun (serverStep s e).1 es

/-! ### The room membership invariant (claim C1) -/

/-- The inductive invariant of the directory: every room in the map is a
non-empty duplicate-free set whose members are exactly the participants
whose `roomId` equals that room, and no participant points at a room that
is not in the map. -/
def Inv (s : SState) : Prop :=
  (∀ rid mems, alGet s.rooms rid = some mems →
      mems ≠ [] ∧ mems.Nodup ∧
      ∀ pid, pid ∈ mems →
        ∃ p, alGet s.participants pid = some p ∧ p.roomId = some rid) ∧
  (∀ pid p rid, alGet s.participants pid = some p → p.roomId = some rid →
      ∃ mems, alGet s.rooms rid = some mems ∧ pid ∈ mems)

/-- The property claimed of every reachable directory state: rooms are
non-empty and hold exactly the participants currently pointing at them. -/
def RoomsExact (s : SState) : Prop :=
  ∀ rid mems, alGet s.rooms rid = some mems →
    mems ≠ [] ∧
    ∀ pid, pid ∈ mems ↔ ∃ p, alGet s.participants pid = some p ∧ p.roomId = some rid

theorem RoomsExact_of_Inv {s : SState} (h : Inv s) : RoomsExact s := by
  obtain ⟨h1, h2⟩ := h
  intro rid mems hm
  obtain ⟨hne, _, hmem⟩ := h1 rid mems hm
  refine ⟨hne, fun pid => ⟨hmem pid, ?_⟩⟩
  rintro ⟨p, hp, hr⟩
  obtain ⟨mems', hm', hpid⟩ := h2 pid p rid hp hr
  rw [hm] at hm'
  cases hm'
  exact hpid

theorem alSet_alSet {κ α : Type} [DecidableEq κ] (l : List (κ × α)) (k : κ) (a b : α) :
    alSet (alSet l k a) k b = alSet l k b := by
  induction l with
  | nil => simp [alSet]
  | cons hd tl ih =>
    obtain ⟨k0, v0⟩ := hd
    by_cases h : k0 = k
    · simp [alSet, h]
    · simp [alSet, h, ih]

/-! Branch characterizations of `handleLeaveRoom`. -/

theorem handleLeaveRoom_noParticipant {s : SState} {pid : String}
    (hp : alGet s.participants pid = none) : handleLeaveRoom s pid = (s, []) := by
  unfold handleLeaveRoom
  rw [hp]

theorem handleLeaveRoom_noRoomId {s : SState} {pid : String} {p : SParticipant}
    (hp : alGet s.participants pid = some p) (hr : p.roomId = none) :
    handleLeaveRoom s pid = (s, []) := by
  simp [handleLeaveRoom, hp, hr]

theorem handleLeaveRoom_roomAbsent {s : SState} {pid : String} {p : SParticipant} {rid : String}
    (hp : alGet s.participants pid = some p) (hr : p.roomId = some rid)
    (hm : alGet s.rooms rid = none) :
    handleLeaveRoom s pid =
      (⟨s.rooms, alSet s.participants pid { p with roomId := none }⟩,
       sendMessage p.wsOpen pid (.roomLeft rid)) := by
  simp [handleLeaveRoom, hp, hr, hm]

theorem handleLeaveRoom_lastMember {s : SState} {pid : String} {p : SParticipant} {rid : String}
    {mems : List String}
    (hp : alGet s.participants pid = some p) (hr : p.roomId = some rid)
    (hm : alGet s.rooms rid = some mems) (he : setDelete mems pid = []) :
    handleLeaveRoom s pid =
      (⟨alErase s.rooms rid, alSet s.participants pid { p with roomId := none }⟩,
       sendMessage p.wsOpen pid (.roomLeft rid)) := by
  simp [handleLeaveRoom, hp, hr, hm, he]

theorem handleLeaveRoom_member {s : SState} {pid : String} {p : SParticipant} {rid : String}
    {mems : List String}
    (hp : alGet s.participants pid = some p) (hr : p.roomId = some rid)
    (hm : alGet s.rooms rid = some mems) (he : setDelete mems pid ≠ []) :
    handleLeaveRoom s pid =
      (⟨alSet s.rooms rid (setDelete mems pid),
        alSet s.participants pid { p with roomId := none }⟩,
       broadcastToRoom ⟨alSet s.rooms rid (setDelete mems pid), s.participants⟩ rid
           (.participantLeft pid) none
         ++ sendMessage p.wsOpen pid (.roomLeft rid)) := by
  simp [handleLeaveRoom, hp, hr, hm, he]

/-- After any `handleLeaveRoom`, the participant record (if it existed)
is still present with `roomId = null` and the other fields untouched. -/
theorem handleLeaveRoom_record {s : SState} {pid : String} {p : SParticipant}
    (hp : alGet s.participants pid = some p) :
    alGet (handleLeaveRoom s pid).1.participants pid = some { p with roomId := none } := by
  cases hr : p.roomId with
  | none =>
    rw [handleLeaveRoom_noRoomId hp hr]
    simpa [← hr] using hp
  | some rid =>
    cases hm : alGet s.rooms rid with
    | none =>
      rw [handleLeaveRoom_roomAbsent hp hr hm]
      exact alGet_alSet_self ..
    | some mems =>
      by_cases he : setDelete mems pid = []
      · rw [handleLeaveRoom_lastMember hp hr hm he]
        exact alGet_alSet_self ..
      · rw [handleLeaveRoom_member hp hr hm he]
        exact alGet_alSet_self ..

/-- Leaving never touches the records of other participants. -/
theorem handleLeaveRoom_record_other {s : SState} {pid q : String} (hq : q ≠ pid) :
    alGet (handleLeaveRoom s pid).1.participants q = alGet s.participants q := by
  cases hp : alGet s.participants pid with
  | none => rw [handleLeaveRoom_noParticipant hp]
  | some p =>
    cases hr : p.roomId with
    | none => rw [handleLeaveRoom_noRoomId hp hr]
    | some rid =>
      cases hm : alGet s.rooms rid with
      | none =>
        rw [handleLeaveRoom_roomAbsent hp hr hm]
        exact alGet_alSet_ne _ _ _ _ (fun h => hq h.symm)
      | some mems =>
        by_cases he : setDelete mems pid = []
        · rw [handleLeaveRoom_lastMember hp hr hm he]
          exact alGet_alSet_ne _ _ _ _ (fun h => hq h.symm)
        · rw [handleLeaveRoom_member hp hr hm he]
          exact alGet_alSet_ne _ _ _ _ (fun h => hq h.symm)

theorem inv_handleLeaveRoom {s : SState} (pid : String) (h : Inv s) :
    Inv (handleLeaveRoom s pid).1 := by
  obtain ⟨h1, h2⟩ := h
  cases hp : alGet s.participants pid with
  | none => rw [handleLeaveRoom_noParticipant hp]; exact ⟨h1, h2⟩
  | some p =>
  cases hr : p.roomId with
  | none => rw [handleLeaveRoom_noRoomId hp hr]; exact ⟨h1, h2⟩
  | some rid =>
  cases hm : alGet s.rooms rid with
  | none =>
    rw [handleLeaveRoom_roomAbsent hp hr hm]
    constructor
    · intro rid' mems' hm'
      obtain ⟨hne, hnd, hmem⟩ := h1 rid' mems' hm'
      refine ⟨hne, hnd, fun q hq => ?_⟩
      obtain ⟨pq, hpq, hpr⟩ := hmem q hq
      by_cases hqp : q = pid
      · subst hqp
        rw [hp] at hpq
        cases hpq
        rw [hr] at hpr
        cases hpr
        rw [hm] at hm'
        cases hm'
      · exact ⟨pq, by rw [alGet_alSet_ne _ _ _ _ (fun hh => hqp hh.symm)]; exact hpq, hpr⟩
    · intro q pq rid' hpq hpr
      by_cases hqp : q = pid
      · subst hqp
        rw [alGet_alSet_self] at hpq
        cases hpq
        cases hpr
      · rw [alGet_alSet_ne _ _ _ _ (fun hh => hqp hh.symm)] at hpq
        exact h2 q pq rid' hpq hpr
  | some mems =>
  by_cases he : setDelete mems pid = []
  · rw [handleLeaveRoom_lastMember hp hr hm he]
    have hall : ∀ y ∈ mems, y = pid := setDelete_eq_nil_iff.mp he
    constructor
    · intro rid' mems' hm'
      by_cases hrr : rid' = rid
      · subst hrr
        rw [alGet_alErase_self] at hm'
        cases hm'
      · rw [alGet_alErase_ne _ _ _ (fun hh => hrr hh.symm)] at hm'
        obtain ⟨hne, hnd, hmem⟩ := h1 rid' mems' hm'
        refine ⟨hne, hnd, fun q hq => ?_⟩
        obtain ⟨pq, hpq, hpr⟩ := hmem q hq
        by_cases hqp : q = pid
        · subst hqp
          rw [hp] at hpq
          cases hpq
          rw [hr] at hpr
          cases hpr
          exact absurd rfl hrr
        · exact ⟨pq, by rw [alGet_alSet_ne _ _ _ _ (fun hh => hqp hh.symm)]; exact hpq, hpr⟩
    · intro q pq rid' hpq hpr
      by_cases hqp : q = pid
      · subst hqp
        rw [alGet_alSet_self] at hpq
        cases hpq
        cases hpr
      · rw [alGet_alSet_ne _ _ _ _ (fun hh => hqp hh.symm)] at hpq
        obtain ⟨mems', hm', hmem'⟩ := h2 q pq rid' hpq hpr
        by_cases hrr : rid' = rid
        · subst hrr
          rw [hm] at hm'
          cases hm'
          exact absurd (hall q hmem') hqp
        · exact ⟨mems', by rw [alGet_alErase_ne _ _ _ (fun hh => hrr hh.symm)]; exact hm', hmem'⟩
  · rw [handleLeaveRoom_member hp hr hm he]
    obtain ⟨hne0, hnd0, hmem0⟩ := h1 rid mems hm
    constructor
    · intro rid' mems' hm'
      by_cases hrr : rid' = rid
      · subst hrr
        rw [alGet_alSet_self] at hm'
        cases hm'
        refine ⟨he, List.Nodup.filter _ hnd0, fun q hq => ?_⟩
        rw [mem_setDelete] at hq
        obtain ⟨pq, hpq, hpr⟩ := hmem0 q hq.1
        exact ⟨pq, by rw [alGet_alSet_ne _ _ _ _ (fun hh => hq.2 hh.symm)]; exact hpq, hpr⟩
      · rw [alGet_alSet_ne _ _ _ _ (fun hh => hrr hh.symm)] at hm'
        obtain ⟨hne, hnd, hmem⟩ := h1 rid' mems' hm'
        refine ⟨hne, hnd, fun q hq => ?_⟩
        obtain ⟨pq, hpq, hpr⟩ := hmem q hq
        by_cases hqp : q = pid
        · subst hqp
          rw [hp] at hpq
          cases hpq
          rw [hr] at hpr
          cases hpr
          exact absurd rfl hrr
        · exact ⟨pq, by rw [alGet_alSet_ne _ _ _ _ (fun hh => hqp hh.symm)]; exact hpq, hpr⟩
    · intro q pq rid' hpq hpr
      by_cases hqp : q = pid
      · subst hqp
        rw [alGet_alSet_self] at hpq
        cases hpq
        cases hpr
      · rw [alGet_alSet_ne _ _ _ _ (fun hh => hqp hh.symm)] at hpq
        obtain ⟨mems', hm', hmem'⟩ := h2 q pq rid' hpq hpr
        by_cases hrr : rid' = rid
        · subst hrr
          rw [hm] at hm'
          cases hm'
          exact ⟨setDelete mems pid, alGet_alSet_self .., mem_setDelete.mpr ⟨hmem', hqp⟩⟩
        · exact ⟨mems', by rw [alGet_alSet_ne _ _ _ _ (fun hh => hrr hh.symm)]; exact hm', hmem'⟩

/-- The nickname shown for a roster entry:
`this.participants.get(id)?.nickname || "Anonymous"`. -/
def rosterNick (participants : List (String × SParticipant)) (q : String) : String :=
  match alGet participants q with
  | some pq => if pq.nickname = "" then "Anonymous" else pq.nickname
  | none => "Anonymous"

/-- The `existing-participants` payload built in `handleJoinRoom`:
the post-add room set minus the joiner, with looked-up nicknames. -/
def joinRoster (participants2 : List (String × SParticipant)) (mems : List String)
    (pid : String) : List (String × String) :=
  ((setAdd mems pid).filter (fun q => q ≠ pid)).map (fun q => (q, rosterNick participants2 q))

/-- `handleJoinRoom` when the joiner is not currently in a room. -/
theorem handleJoinRoom_core_eq {s : SState} {pid : String} {p : SParticipant} {rid : String}
    (nick? : Option String)
    (hp : alGet s.participants pid = some p) (hrid : rid ≠ "") (hnone : p.roomId = none) :
    handleJoinRoom s pid (some rid) nick? =
      (⟨alSet s.rooms rid (setAdd ((alGet s.rooms rid).getD []) pid),
        alSet s.participants pid ⟨p.wsOpen, some rid, nickOr nick?⟩⟩,
       sendMessage p.wsOpen pid (.roomJoined rid pid)
         ++ broadcastToRoom
              ⟨alSet s.rooms rid (setAdd ((alGet s.rooms rid).getD []) pid),
               alSet s.participants pid ⟨p.wsOpen, some rid, nickOr nick?⟩⟩
              rid (.participantJoined pid (nickOr nick?)) (some pid)
         ++ if (joinRoster (alSet s.participants pid ⟨p.wsOpen, some rid, nickOr nick?⟩)
                  ((alGet s.rooms rid).getD []) pid).length > 0
            then sendMessage p.wsOpen pid
                   (.existingParticipants
                     (joinRoster (alSet s.participants pid ⟨p.wsOpen, some rid, nickOr nick?⟩)
                       ((alGet s.rooms rid).getD []) pid))
            else []) := by
  have ht : strTruthy (some rid) = true := by simp [strTruthy, hrid]
  cases hm : alGet s.rooms rid with
  | none =>
    simp [handleJoinRoom, hp, ht, hnone, hm, alGet_alSet_self, alSet_alSet,
      joinRoster, rosterNick]
  | some mems =>
    simp [handleJoinRoom, hp, ht, hnone, hm, joinRoster, rosterNick]

/-- `handleJoinRoom` when the joiner is in a room: it implicitly leaves
first, then the join proceeds on the post-leave state. -/
theorem handleJoinRoom_afterLeave_eq {s : SState} {pid : String} {p : SParticipant}
    {r0 rid : String} (nick? : Option String)
    (hp : alGet s.participants pid = some p) (hrid : rid ≠ "") (hsome : p.roomId = some r0) :
    handleJoinRoom s pid (some rid) nick? =
      (⟨alSet (handleLeaveRoom s pid).1.rooms rid
          (setAdd ((alGet (handleLeaveRoom s pid).1.rooms rid).getD []) pid),
        alSet (handleLeaveRoom s pid).1.participants pid ⟨p.wsOpen, some rid, nickOr nick?⟩⟩,
       (handleLeaveRoom s pid).2
         ++ sendMessage p.wsOpen pid (.roomJoined rid pid)
         ++ broadcastToRoom
              ⟨alSet (handleLeaveRoom s pid).1.rooms rid
                 (setAdd ((alGet (handleLeaveRoom s pid).1.rooms rid).getD []) pid),
               alSet (handleLeaveRoom s pid).1.participants pid
                 ⟨p.wsOpen, some rid, nickOr nick?⟩⟩
              rid (.participantJoined pid (nickOr nick?)) (some pid)
         ++ if (joinRoster
                  (alSet (handleLeaveRoom s pid).1.participants pid
                    ⟨p.wsOpen, some rid, nickOr nick?⟩)
                  ((alGet (handleLeaveRoom s pid).1.rooms rid).getD []) pid).length > 0
            then sendMessage p.wsOpen pid
                   (.existingParticipants
                     (joinRoster
                       (alSet (handleLeaveRoom s pid).1.participants pid
                         ⟨p.wsOpen, some rid, nickOr nick?⟩)
                       ((alGet (handleLeaveRoom s pid).1.rooms rid).getD []) pid))
            else []) := by
  have ht : strTruthy (some rid) = true := by simp [strTruthy, hrid]
  have hrec := handleLeaveRoom_record hp
  cases hm : alGet (handleLeaveRoom s pid).1.rooms rid with
  | none =>
    simp [handleJoinRoom, hp, ht, hsome, hrec, hm, alGet_alSet_self, alSet_alSet,
      joinRoster, rosterNick]
  | some mems =>
    simp [handleJoinRoom, hp, ht, hsome, hrec, hm, joinRoster, rosterNick]

/-- Adding a participant whose record currently carries no room into a
room preserves the invariant. -/
theorem inv_joinCore {s1 : SState} {pid : String} {p1 : SParticipant} (rid : String)
    (w : Bool) (nk : String)
    (h : Inv s1) (hp : alGet s1.participants pid = some p1) (hnone : p1.roomId = none) :
    Inv ⟨alSet s1.rooms rid (setAdd ((alGet s1.rooms rid).getD []) pid),
         alSet s1.participants pid ⟨w, some rid, nk⟩⟩ := by
  obtain ⟨h1, h2⟩ := h
  have hnd : ((alGet s1.rooms rid).getD []).Nodup := by
    cases hm : alGet s1.rooms rid with
    | none => simp
    | some ms => simpa using (h1 rid ms hm).2.1
  have hmem : ∀ q ∈ (alGet s1.rooms rid).getD [],
      ∃ p, alGet s1.participants q = some p ∧ p.roomId = some rid := by
    cases hm : alGet s1.rooms rid with
    | none => simp
    | some ms => simpa using (h1 rid ms hm).2.2
  have hpidnot : pid ∉ (alGet s1.rooms rid).getD [] := by
    intro hq
    obtain ⟨p', hp', hr'⟩ := hmem pid hq
    rw [hp] at hp'
    cases hp'
    rw [hnone] at hr'
    cases hr'
  constructor
  · intro rid' mems' hm'
    by_cases hrr : rid' = rid
    · subst hrr
      rw [alGet_alSet_self] at hm'
      cases hm'
      refine ⟨List.ne_nil_of_mem (mem_setAdd.mpr (Or.inr rfl)), nodup_setAdd hnd pid,
        fun q hq => ?_⟩
      rcases mem_setAdd.mp hq with hq | rfl
      · have hqp : q ≠ pid := fun hh => hpidnot (hh ▸ hq)
        obtain ⟨pq, hpq, hpr⟩ := hmem q hq
        exact ⟨pq, by rw [alGet_alSet_ne _ _ _ _ (fun hh => hqp hh.symm)]; exact hpq, hpr⟩
      · exact ⟨⟨w, some rid', nk⟩, alGet_alSet_self .., rfl⟩
    · rw [alGet_alSet_ne _ _ _ _ (fun hh => hrr hh.symm)] at hm'
      obtain ⟨hne, hnd', hmem'⟩ := h1 rid' mems' hm'
      refine ⟨hne, hnd', fun q hq => ?_⟩
      obtain ⟨pq, hpq, hpr⟩ := hmem' q hq
      by_cases hqp : q = pid
      · subst hqp
        rw [hp] at hpq
        cases hpq
        rw [hnone] at hpr
        cases hpr
      · exact ⟨pq, by rw [alGet_alSet_ne _ _ _ _ (fun hh => hqp hh.symm)]; exact hpq, hpr⟩
  · intro q pq rid' hpq hpr
    by_cases hqp : q = pid
    · subst hqp
      rw [alGet_alSet_self] at hpq
      cases hpq
      cases hpr
      exact ⟨_, alGet_alSet_self .., mem_setAdd.mpr (Or.inr rfl)⟩
    · rw [alGet_alSet_ne _ _ _ _ (fun hh => hqp hh.symm)] at hpq
      obtain ⟨ms', hm', hq'⟩ := h2 q pq rid' hpq hpr
      by_cases hrr : rid' = rid
      · subst hrr
        refine ⟨setAdd ((alGet s1.rooms rid').getD []) pid, alGet_alSet_self .., ?_⟩
        rw [hm']
        exact mem_setAdd.mpr (Or.inl (by simpa using hq'))
      · exact ⟨ms', by rw [alGet_alSet_ne _ _ _ _ (fun hh => hrr hh.symm)]; exact hm', hq'⟩

theorem inv_handleJoinRoom {s : SState} (pid : String) (roomId? nickname? : Option String)
    (h : Inv s) : Inv (handleJoinRoom s pid roomId? nickname?).1 := by
  cases hp : alGet s.participants pid with
  | none => simpa [handleJoinRoom, hp] using h
  | some p =>
    by_cases ht : strTruthy roomId? = true
    · match roomId?, ht with
      | some rid, ht =>
        have hrid : rid ≠ "" := by simpa [strTruthy] using ht
        cases hr : p.roomId with
        | none =>
          rw [handleJoinRoom_core_eq nickname? hp hrid hr]
          exact inv_joinCore rid p.wsOpen (nickOr nickname?) h hp hr
        | some r0 =>
          rw [handleJoinRoom_afterLeave_eq nickname? hp hrid hr]
          exact inv_joinCore rid p.wsOpen (nickOr nickname?)
            (inv_handleLeaveRoom pid h) (handleLeaveRoom_record hp) rfl
    · have ht' : strTruthy roomId? = false := by
        cases hb : strTruthy roomId? with
        | false => rfl
        | true => exact absurd hb ht
      simpa [handleJoinRoom, hp, ht'] using h

/-- `relaySignal` never changes directory state. -/
theorem handleSignal_fst (s : SState) (pid : String) (to? : Option String) (payload : String) :
    (handleSignal s pid to? payload).1 = s := by
  cases to? with
  | none => rfl
  | some t =>
    cases ht : alGet s.participants t with
    | none => simp [handleSignal, ht]
    | some tp => simp [handleSignal, ht]

/-- Removing a participant that is in no room preserves the invariant. -/
theorem inv_eraseParticipant {s : SState} {pid : String} (h : Inv s)
    (hnone : ∀ p, alGet s.participants pid = some p → p.roomId = none) :
    Inv ⟨s.rooms, alErase s.participants pid⟩ := by
  obtain ⟨h1, h2⟩ := h
  constructor
  · intro rid mems hm
    obtain ⟨hne, hnd, hmem⟩ := h1 rid mems hm
    refine ⟨hne, hnd, fun q hq => ?_⟩
    obtain ⟨pq, hpq, hpr⟩ := hmem q hq
    by_cases hqp : q = pid
    · subst hqp
      rw [hnone pq hpq] at hpr
      cases hpr
    · exact ⟨pq, by rw [alGet_alErase_ne _ _ _ (fun hh => hqp hh.symm)]; exact hpq, hpr⟩
  · intro q pq rid hpq hpr
    have hqp : q ≠ pid := by
      rintro rfl
      rw [alGet_alErase_self] at hpq
      cases hpq
    rw [alGet_alErase_ne _ _ _ (fun hh => hqp hh.symm)] at hpq
    exact h2 q pq rid hpq hpr

/-- Updating only the socket flag of a record preserves the invariant. -/
theorem inv_setWsOpen {s : SState} {pid : String} {p : SParticipant} (b : Bool) (h : Inv s)
    (hp : alGet s.participants pid = some p) :
    Inv ⟨s.rooms, alSet s.participants pid { p with wsOpen := b }⟩ := by
  obtain ⟨h1, h2⟩ := h
  constructor
  · intro rid mems hm
    obtain ⟨hne, hnd, hmem⟩ := h1 rid mems hm
    refine ⟨hne, hnd, fun q hq => ?_⟩
    obtain ⟨pq, hpq, hpr⟩ := hmem q hq
    by_cases hqp : q = pid
    · subst hqp
      rw [hp] at hpq
      cases hpq
      exact ⟨_, alGet_alSet_self .., hpr⟩
    · exact ⟨pq, by rw [alGet_alSet_ne _ _ _ _ (fun hh => hqp hh.symm)]; exact hpq, hpr⟩
  · intro q pq rid hpq hpr
    by_cases hqp : q = pid
    · subst hqp
      rw [alGet_alSet_self] at hpq
      cases hpq
      exact h2 _ p rid hp hpr
    · rw [alGet_alSet_ne _ _ _ _ (fun hh => hqp hh.symm)] at hpq
      exact h2 q pq rid hpq hpr

theorem inv_handleDisconnection {s : SState} (pid : String) (h : Inv s) :
    Inv (handleDisconnection s pid).1 := by
  unfold handleDisconnection
  cases hp : alGet s.participants pid with
  | none =>
    simp only [hp]
    exact inv_eraseParticipant h (fun p hp' => by rw [hp] at hp'; cases hp')
  | some p =>
    cases hri : p.roomId with
    | none =>
      simp only [hp, hri, Option.isSome_none, Bool.false_eq_true, if_false]
      exact inv_eraseParticipant h (fun p' hp' => by rw [hp] at hp'; cases hp'; exact hri)
    | some r0 =>
      simp only [hp, hri, Option.isSome_some, if_true]
      exact inv_eraseParticipant (inv_handleLeaveRoom pid h)
        (fun p' hp' => by rw [handleLeaveRoom_record hp] at hp'; cases hp'; rfl)

/-- Registering a fresh connection preserves the invariant. -/
theorem inv_connect {s : SState} {pid : String} (h : Inv s)
    (hfresh : alGet s.participants pid = none) :
    Inv ⟨s.rooms, alSet s.participants pid ⟨true, none, "Anonymous"⟩⟩ := by
  obtain ⟨h1, h2⟩ := h
  constructor
  · intro rid mems hm
    obtain ⟨hne, hnd, hmem⟩ := h1 rid mems hm
    refine ⟨hne, hnd, fun q hq => ?_⟩
    obtain ⟨pq, hpq, hpr⟩ := hmem q hq
    by_cases hqp : q = pid
    · subst hqp
      rw [hfresh] at hpq
      cases hpq
    · exact ⟨pq, by rw [alGet_alSet_ne _ _ _ _ (fun hh => hqp hh.symm)]; exact hpq, hpr⟩
  · intro q pq rid hpq hpr
    by_cases hqp : q = pid
    · subst hqp
      rw [alGet_alSet_self] at hpq
      cases hpq
      cases hpr
    · rw [alGet_alSet_ne _ _ _ _ (fun hh => hqp hh.symm)] at hpq
      exact h2 q pq rid hpq hpr

theorem inv_serverStep {s : SState} {e : DirEvent} (h : Inv s) (hf : freshOk s e = true) :
    Inv (serverStep s e).1 := by
  cases e with
  | connect pid =>
    have hfresh : alGet s.participants pid = none := by
      simpa [freshOk, Option.isNone_iff_eq_none] using hf
    simpa [serverStep] using inv_connect h hfresh
  | message pid r =>
    cases r with
    | malformed =>
      cases hp : alGet s.participants pid with
      | none => simpa [serverStep, onMessage, hp] using h
      | some p => simpa [serverStep, onMessage, hp] using h
    | parsed m =>
      cases hp : alGet s.participants pid with
      | none => simpa [serverStep, onMessage, handleMessage, hp] using h
      | some p =>
        cases m with
        | joinRoom rid? nick? =>
          simpa [serverStep, onMessage, handleMessage, hp] using
            inv_handleJoinRoom pid rid? nick? h
        | leaveRoom =>
          simpa [serverStep, onMessage, handleMessage, hp] using inv_handleLeaveRoom pid h
        | signalTo t payload =>
          simpa [serverStep, onMessage, handleMessage, hp, handleSignal_fst] using h
        | otherType t =>
          simpa [serverStep, onMessage, handleMessage, hp] using h
  | closeConn pid =>
    cases hp : alGet s.participants pid with
    | none => simpa [serverStep, hp] using inv_handleDisconnection pid h
    | some p =>
      simpa [serverStep, hp] using
        inv_handleDisconnection pid (inv_setWsOpen false h hp)

theorem inv_serverRun {s : SState} {es : List DirEvent} (h : Inv s)
    (hf : freshRun s es = true) : Inv (serverRun s es).1 := by
  induction es generalizing s with
  | nil => simpa [serverRun] using h
  | cons e es ih =>
    rw [freshRun, Bool.and_eq_true] at hf
    simpa [serverRun] using ih (inv_serverStep h hf.1) hf.2

theorem inv_initState : Inv initState := by
  constructor
  · intro rid mems hm
    cases hm
  · intro q pq rid hpq
    cases hpq

/-- C1.  Room membership invariant: for every sequence of directory events
(connections with fresh ids, join-room, leave-room, disconnect) processed
from the empty directory, every room present in the rooms map has a
non-empty participant set that equals exactly the set of participants whose
`roomId` currently equals that room (so a room emptied by the last
leave/disconnect is removed from the map immediately). -/
theorem roomDirectory_membership_invariant (es : List DirEvent)
    (hf : freshRun initState es = true) :
    RoomsExact (serverRun initState es).1 :=
  RoomsExact_of_Inv (inv_serverRun inv_initState hf)

/-- A concrete event sequence exercising join, a second join, an implicit
re-join, a leave and a disconnect. -/
def demoEvents : List DirEvent :=
  [.connect "p1",
   .message "p1" (.parsed (.joinRoom (some "r1") (some "Alice"))),
   .connect "p2",
   .message "p2" (.parsed (.joinRoom (some "r1") none)),
   .message "p2" (.parsed (.joinRoom (some "r2") (some "Bob"))),
   .message "p1" (.parsed .leaveRoom),
   .closeConn "p2"]

theorem roomDirectory_membership_invariant_witness :
    RoomsExact (serverRun initState demoEvents).1 :=
  roomDirectory_membership_invariant demoEvents (by decide)

/-! ### Claims C8, C3, C5 about the directory message handlers -/

/-- C8.  Leave is a no-op when not in a room: a participant whose
`roomId` is null is untouched by leave-room and no message of any kind is
emitted; consequently a second consecutive leave has no observable
effect. -/
theorem leave_noop_when_not_in_room (s : SState) (pid : String) :
    (∀ p, alGet s.participants pid = some p → p.roomId = none →
        handleLeaveRoom s pid = (s, [])) ∧
    handleLeaveRoom (handleLeaveRoom s pid).1 pid = ((handleLeaveRoom s pid).1, []) := by
  constructor
  · intro p hp hr
    exact handleLeaveRoom_noRoomId hp hr
  · cases hp : alGet s.participants pid with
    | none =>
      rw [handleLeaveRoom_noParticipant hp]
      exact handleLeaveRoom_noParticipant hp
    | some p =>
      exact handleLeaveRoom_noRoomId (handleLeaveRoom_record hp) rfl

theorem leave_noop_when_not_in_room_witness :
    handleLeaveRoom (⟨[], [("a", ⟨true, none, "Ann"⟩)]⟩ : SState) "a"
        = (⟨[], [("a", ⟨true, none, "Ann"⟩)]⟩, []) ∧
    handleLeaveRoom (handleLeaveRoom ⟨[("r", ["a"])], [("a", ⟨true, some "r", "Ann"⟩)]⟩ "a").1 "a"
        = ((handleLeaveRoom ⟨[("r", ["a"])], [("a", ⟨true, some "r", "Ann"⟩)]⟩ "a").1, []) :=
  ⟨(leave_noop_when_not_in_room ⟨[], [("a", ⟨true, none, "Ann"⟩)]⟩ "a").1
      ⟨true, none, "Ann"⟩ (by decide) rfl,
   (leave_noop_when_not_in_room ⟨[("r", ["a"])], [("a", ⟨true, some "r", "Ann"⟩)]⟩ "a").2⟩

/-- C3.  Signal relay exactness and silent drop: a `signal {to, signal}`
message from a connected sender is forwarded to the target as exactly one
`{type: "signal", from: sender, signal: payload}` message with the payload
unmodified when the target record exists with an open transport; when the
target is absent the message is dropped with no output at all — no error
and no reply to the sender — and the state is unchanged in both cases. -/
theorem signal_relay_exact (s : SState) (a b payload : String) (p : SParticipant)
    (ha : alGet s.participants a = some p) :
    (∀ tp, alGet s.participants b = some tp → tp.wsOpen = true →
        handleMessage s a (.signalTo (some b) payload)
          = (s, [(b, .signalMsg a payload)])) ∧
    (alGet s.participants b = none →
        handleMessage s a (.signalTo (some b) payload) = (s, [])) := by
  constructor
  · intro tp hb hw
    simp [handleMessage, ha, handleSignal, hb, sendMessage, hw]
  · intro hb
    simp [handleMessage, ha, handleSignal, hb]

theorem signal_relay_exact_witness :
    handleMessage (⟨[], [("a", ⟨true, none, "Ann"⟩), ("b", ⟨true, none, "Bob"⟩)]⟩ : SState)
        "a" (.signalTo (some "b") "offer-sdp")
      = (⟨[], [("a", ⟨true, none, "Ann"⟩), ("b", ⟨true, none, "Bob"⟩)]⟩,
         [("b", .signalMsg "a" "offer-sdp")]) ∧
    handleMessage (⟨[], [("a", ⟨true, none, "Ann"⟩)]⟩ : SState)
        "a" (.signalTo (some "ghost") "offer-sdp")
      = (⟨[], [("a", ⟨true, none, "Ann"⟩)]⟩, []) :=
  ⟨(signal_relay_exact _ "a" "b" "offer-sdp" ⟨true, none, "Ann"⟩ (by decide)).1
      ⟨true, none, "Bob"⟩ (by decide) rfl,
   (signal_relay_exact _ "a" "ghost" "offer-sdp" ⟨true, none, "Ann"⟩ (by decide)).2 (by decide)⟩

/-- C5 counterexample: a recognized message type with its required field
missing (`join-room` without `roomId`) is silently ignored — the reply
list is empty, so no `error{message}` goes back to the sender, contrary to
the claim that every malformed inbound message gets an error reply. -/
theorem missing_roomId_no_error_reply_cex :
    onMessage (serverStep initState (.connect "p1")).1 "p1"
        (.parsed (.joinRoom none (some "Ann")))
      = ((serverStep initState (.connect "p1")).1, []) := by
  decide

/-- C5 (amended).  Malformed-input robustness: unparseable JSON and
unrecognized message types are answered with an `error{message}` reply on
the same (still open, unchanged) connection; a recognized type with a
required field missing — `join-room` without `roomId` (or with an empty
one) — is dropped silently with no reply; in every case the handler
returns normally and the directory state is unchanged. -/
theorem malformed_message_error_replies (s : SState) (pid : String) (p : SParticipant)
    (hp : alGet s.participants pid = some p) (hw : p.wsOpen = true) :
    onMessage s pid .malformed = (s, [(pid, .errorMsg "Invalid message format")]) ∧
    (∀ t, onMessage s pid (.parsed (.otherType t))
        = (s, [(pid, .errorMsg ("Unknown message type: " ++ t))])) ∧
    (∀ nick, onMessage s pid (.parsed (.joinRoom none nick)) = (s, [])) ∧
    (∀ nick, onMessage s pid (.parsed (.joinRoom (some "") nick)) = (s, [])) := by
  refine ⟨?_, fun t => ?_, fun nick => ?_, fun nick => ?_⟩
  · simp [onMessage, hp, sendMessage, hw]
  · simp [onMessage, handleMessage, hp, sendMessage, hw]
  · simp [onMessage, handleMessage, handleJoinRoom, hp, strTruthy]
  · simp [onMessage, handleMessage, handleJoinRoom, hp, strTruthy]

theorem malformed_message_error_replies_witness :
    onMessage (⟨[], [("a", ⟨true, none, "Ann"⟩)]⟩ : SState) "a" .malformed
      = (⟨[], [("a", ⟨true, none, "Ann"⟩)]⟩,
         [("a", .errorMsg "Invalid message format")]) ∧
    onMessage (⟨[], [("a", ⟨true, none, "Ann"⟩)]⟩ : SState) "a" (.parsed (.otherType "ping"))
      = (⟨[], [("a", ⟨true, none, "Ann"⟩)]⟩,
         [("a", .errorMsg ("Unknown message type: " ++ "ping"))]) :=
  ⟨(malformed_message_error_replies _ "a" ⟨true, none, "Ann"⟩ (by decide) rfl).1,
   (malformed_message_error_replies _ "a" ⟨true, none, "Ann"⟩ (by decide) rfl).2.1 "ping"⟩

/-! ### Counting helpers for the join broadcast (claim C2) -/

theorem count_filterMap_keyed {l : List String} (f : String → Option SOut)
    (hk : ∀ x y, f x = some y → y.1 = x) (hnd : l.Nodup) (y : SOut) :
    (l.filterMap f).count y = if f y.1 = some y ∧ y.1 ∈ l then 1 else 0 := by
  induction l with
  | nil => simp
  | cons x xs ih =>
    rw [List.nodup_cons] at hnd
    obtain ⟨hx, hxs⟩ := hnd
    rw [List.filterMap_cons]
    cases hfx : f x with
    | none =>
      rw [ih hxs]
      by_cases hyx : y.1 = x
      · simp [hyx, hfx]
      · simp [hyx]
    | some b =>
      have hbx : b.1 = x := hk x b hfx
      rw [List.count_cons, ih hxs]
      by_cases hby : y = b
      · subst hby
        rw [hbx]
        simp [hfx, hx]
      · have hbyne : ¬ b = y := fun hh => hby hh.symm
        by_cases hyx : y.1 = x
        · rw [hyx]
          simp [hfx, hbyne]
        · simp [hyx, hbyne]

theorem count_filterMap_zero {l : List String} (f : String → Option SOut) (y : SOut)
    (h : ∀ x, f x ≠ some y) : (l.filterMap f).count y = 0 := by
  rw [List.count_eq_zero]
  intro hy
  obtain ⟨x, _, hfx⟩ := List.mem_filterMap.mp hy
  exact h x hfx

theorem setAdd_not_mem {l : List String} {x : String} (h : x ∉ l) :
    setAdd l x = l ++ [x] := by
  simp [setAdd, h]

theorem filter_setAdd_self {l : List String} {x : String} (h : x ∉ l) :
    (setAdd l x).filter (fun q => q ≠ x) = l := by
  rw [setAdd_not_mem h, List.filter_append]
  have h1 : l.filter (fun q => decide (q ≠ x)) = l :=
    List.filter_eq_self.mpr (fun a ha => by
      simp only [decide_eq_true_eq]
      exact fun e => h (e ▸ ha))
  have h2 : [x].filter (fun q => decide (q ≠ x)) = [] := by simp
  rw [h1, h2, List.append_nil]

/-- The element produced by the broadcast body is keyed by the member it
was produced for. -/
theorem broadcast_fun_keyed (parts : List (String × SParticipant)) (m : ServerMsg)
    (excl : Option String) :
    ∀ x y, (if excl = some x then none
            else match alGet parts x with
                 | some p => if p.wsOpen then some (x, m) else none
                 | none => (none : Option SOut)) = some y → y.1 = x := by
  intro x y h
  by_cases he : excl = some x
  · rw [if_pos he] at h
    cases h
  · rw [if_neg he] at h
    cases hg : alGet parts x with
    | none => simp [hg] at h
    | some p =>
      simp only [hg] at h
      by_cases hw : p.wsOpen = true
      · rw [if_pos hw] at h
        cases h
        rfl
      · rw [if_neg hw] at h
        cases h

/-- The broadcast body only ever produces the broadcast message. -/
theorem broadcast_fun_msg (parts : List (String × SParticipant)) (m : ServerMsg)
    (excl : Option String) :
    ∀ x y, (if excl = some x then none
            else match alGet parts x with
                 | some p => if p.wsOpen then some (x, m) else none
                 | none => (none : Option SOut)) = some y → y.2 = m := by
  intro x y h
  by_cases he : excl = some x
  · rw [if_pos he] at h
    cases h
  · rw [if_neg he] at h
    cases hg : alGet parts x with
    | none => simp [hg] at h
    | some p =>
      simp only [hg] at h
      by_cases hw : p.wsOpen = true
      · rw [if_pos hw] at h
        cases h
        rfl
      · rw [if_neg hw] at h
        cases h

theorem broadcastToRoom_eq (s' : SState) (rid : String) (m : ServerMsg)
    (excl : Option String) (mems : List String) (hm : alGet s'.rooms rid = some mems) :
    broadcastToRoom s' rid m excl = mems.filterMap (fun q =>
      if excl = some q then none
      else match alGet s'.participants q with
           | some p => if p.wsOpen then some (q, m) else none
           | none => none) := by
  simp [broadcastToRoom, hm]

/-- Normal form of the outputs of a join from a roomless participant with
an open socket: the `room-joined` confirmation, the `participant-joined`
broadcast over the pre-join members, and — only when the pre-join roster
is non-empty — the `existing-participants` reply. -/
theorem handleJoinRoom_out_form (s : SState) (pid rid : String) (p : SParticipant)
    (nick? : Option String)
    (hp : alGet s.participants pid = some p) (hw : p.wsOpen = true)
    (hnone : p.roomId = none) (hrid : rid ≠ "")
    (hpidnot : pid ∉ (alGet s.rooms rid).getD []) :
    (handleJoinRoom s pid (some rid) nick?).2
      = [(pid, .roomJoined rid pid)]
        ++ ((alGet s.rooms rid).getD []).filterMap (fun q =>
             if some pid = some q then none
             else
               match alGet (alSet s.participants pid ⟨p.wsOpen, some rid, nickOr nick?⟩) q with
               | some pq =>
                 if pq.wsOpen then some (q, ServerMsg.participantJoined pid (nickOr nick?))
                 else none
               | none => none)
        ++ (if 0 < ((alGet s.rooms rid).getD []).length
            then [(pid, .existingParticipants
                    (((alGet s.rooms rid).getD []).map
                      (fun q => (q, rosterNick s.participants q))))]
            else []) := by
  rw [handleJoinRoom_core_eq nick? hp hrid hnone]
  have hroster : joinRoster (alSet s.participants pid ⟨p.wsOpen, some rid, nickOr nick?⟩)
      ((alGet s.rooms rid).getD []) pid
      = ((alGet s.rooms rid).getD []).map (fun q => (q, rosterNick s.participants q)) := by
    unfold joinRoster
    rw [filter_setAdd_self hpidnot]
    refine List.map_congr_left (fun q hq => ?_)
    have hqp : pid ≠ q := fun hh => hpidnot (hh ▸ hq)
    simp [rosterNick, alGet_alSet_ne _ _ _ _ hqp]
  rw [hroster,
    broadcastToRoom_eq _ _ _ _ _
      (alGet_alSet_self s.rooms rid (setAdd ((alGet s.rooms rid).getD []) pid)),
    setAdd_not_mem hpidnot, List.filterMap_append]
  simp [sendMessage, hw]

theorem setDelete_not_mem {l : List String} {x : String} (h : x ∉ l) :
    setDelete l x = l := by
  unfold setDelete
  refine List.filter_eq_self.mpr (fun a ha => ?_)
  simp only [decide_eq_true_eq]
  exact fun e => h (e ▸ ha)

theorem mem_sendMessage {w : Bool} {pid : String} {m : ServerMsg} {z : SOut}
    (hz : z ∈ sendMessage w pid m) : z = (pid, m) := by
  unfold sendMessage at hz
  by_cases hw : w = true
  · rw [if_pos hw] at hz
    simpa using hz
  · rw [if_neg hw] at hz
    simp at hz

/-- Everything `handleLeaveRoom` writes is either a `participant-left`
broadcast or the `room-left` confirmation to the leaver. -/
theorem handleLeaveRoom_out_shape {s : SState} {pid : String} {z : SOut}
    (hz : z ∈ (handleLeaveRoom s pid).2) :
    z.2 = ServerMsg.participantLeft pid ∨ ∃ r, z = (pid, ServerMsg.roomLeft r) := by
  cases hp : alGet s.participants pid with
  | none =>
    rw [handleLeaveRoom_noParticipant hp] at hz
    simp at hz
  | some p =>
  cases hr : p.roomId with
  | none =>
    rw [handleLeaveRoom_noRoomId hp hr] at hz
    simp at hz
  | some rid =>
  cases hm : alGet s.rooms rid with
  | none =>
    rw [handleLeaveRoom_roomAbsent hp hr hm] at hz
    exact Or.inr ⟨rid, mem_sendMessage hz⟩
  | some mems =>
  by_cases he : setDelete mems pid = []
  · rw [handleLeaveRoom_lastMember hp hr hm he] at hz
    exact Or.inr ⟨rid, mem_sendMessage hz⟩
  · rw [handleLeaveRoom_member hp hr hm he] at hz
    rcases List.mem_append.mp hz with hz | hz
    · rw [broadcastToRoom_eq _ _ _ _ (setDelete mems pid) (alGet_alSet_self ..)] at hz
      obtain ⟨x, hx, hfx⟩ := List.mem_filterMap.mp hz
      exact Or.inl (broadcast_fun_msg _ _ _ x _ hfx)
    · exact Or.inr ⟨rid, mem_sendMessage hz⟩

/-- After the implicit leave, the target room holds exactly the pre-join
members other than the joiner — given that the joiner either was in the
target room (so the leave removed it) or was not listed in it (which the
room invariant guarantees for reachable states). -/
theorem handleLeaveRoom_room_membership {s : SState} {pid rid : String} {p : SParticipant}
    (hp : alGet s.participants pid = some p)
    (hcoh : p.roomId = some rid ∨ pid ∉ (alGet s.rooms rid).getD []) :
    (alGet (handleLeaveRoom s pid).1.rooms rid).getD []
      = setDelete ((alGet s.rooms rid).getD []) pid := by
  cases hr : p.roomId with
  | none =>
    have hnot : pid ∉ (alGet s.rooms rid).getD [] := by
      rcases hcoh with hcoh | hcoh
      · rw [hr] at hcoh
        cases hcoh
      · exact hcoh
    rw [handleLeaveRoom_noRoomId hp hr, setDelete_not_mem hnot]
  | some r0 =>
  by_cases hrr : r0 = rid
  · subst hrr
    cases hm : alGet s.rooms r0 with
    | none =>
      rw [handleLeaveRoom_roomAbsent hp hr hm]
      simp [hm, setDelete]
    | some mems =>
      by_cases he : setDelete mems pid = []
      · rw [handleLeaveRoom_lastMember hp hr hm he]
        simp [alGet_alErase_self, hm, he]
      · rw [handleLeaveRoom_member hp hr hm he]
        simp [alGet_alSet_self, hm]
  · have hnot : pid ∉ (alGet s.rooms rid).getD [] := by
      rcases hcoh with hcoh | hcoh
      · rw [hr] at hcoh
        exact absurd (Option.some.inj hcoh) hrr
      · exact hcoh
    rw [setDelete_not_mem hnot]
    cases hm : alGet s.rooms r0 with
    | none => rw [handleLeaveRoom_roomAbsent hp hr hm]
    | some mems =>
      by_cases he : setDelete mems pid = []
      · rw [handleLeaveRoom_lastMember hp hr hm he]
        exact congrArg (Option.getD · []) (alGet_alErase_ne _ _ _ hrr)
      · rw [handleLeaveRoom_member hp hr hm he]
        exact congrArg (Option.getD · []) (alGet_alSet_ne _ _ _ _ hrr)

/-- Normal form of the outputs of every join (with or without an implicit
leave): the leave outputs, the `room-joined` confirmation, the
`participant-joined` broadcast over the post-leave members of the target
room, and — only when non-empty — the `existing-participants` reply. -/
theorem handleJoinRoom_out_form_general (s : SState) (pid rid : String) (p : SParticipant)
    (nick? : Option String)
    (hp : alGet s.participants pid = some p) (hw : p.wsOpen = true) (hrid : rid ≠ "")
    (hpidnot1 : pid ∉ (alGet (handleLeaveRoom s pid).1.rooms rid).getD []) :
    (handleJoinRoom s pid (some rid) nick?).2
      = (handleLeaveRoom s pid).2
        ++ [(pid, ServerMsg.roomJoined rid pid)]
        ++ ((alGet (handleLeaveRoom s pid).1.rooms rid).getD []).filterMap (fun q =>
             if some pid = some q then none
             else
               match alGet (alSet (handleLeaveRoom s pid).1.participants pid
                   ⟨p.wsOpen, some rid, nickOr nick?⟩) q with
               | some pq =>
                 if pq.wsOpen then some (q, ServerMsg.participantJoined pid (nickOr nick?))
                 else none
               | none => none)
        ++ (if 0 < ((alGet (handleLeaveRoom s pid).1.rooms rid).getD []).length
            then [(pid, ServerMsg.existingParticipants
                    (((alGet (handleLeaveRoom s pid).1.rooms rid).getD []).map
                      (fun q => (q, rosterNick (handleLeaveRoom s pid).1.participants q))))]
            else []) := by
  cases hr : p.roomId with
  | none =>
    have hL : handleLeaveRoom s pid = (s, []) := handleLeaveRoom_noRoomId hp hr
    rw [hL] at hpidnot1 ⊢
    rw [handleJoinRoom_out_form s pid rid p nick? hp hw hr hrid hpidnot1]
    simp
  | some r0 =>
    rw [handleJoinRoom_afterLeave_eq nick? hp hrid hr]
    have hroster : joinRoster
        (alSet (handleLeaveRoom s pid).1.participants pid ⟨p.wsOpen, some rid, nickOr nick?⟩)
        ((alGet (handleLeaveRoom s pid).1.rooms rid).getD []) pid
        = ((alGet (handleLeaveRoom s pid).1.rooms rid).getD []).map
            (fun q => (q, rosterNick (handleLeaveRoom s pid).1.participants q)) := by
      unfold joinRoster
      rw [filter_setAdd_self hpidnot1]
      refine List.map_congr_left (fun q hq => ?_)
      have hqp : pid ≠ q := fun hh => hpidnot1 (hh ▸ hq)
      simp [rosterNick, alGet_alSet_ne _ _ _ _ hqp]
    rw [hroster,
      broadcastToRoom_eq _ _ _ _ _
        (alGet_alSet_self (handleLeaveRoom s pid).1.rooms rid
          (setAdd ((alGet (handleLeaveRoom s pid).1.rooms rid).getD []) pid)),
      setAdd_not_mem hpidnot1, List.filterMap_append]
    simp [sendMessage, hw]

/-- C2 (amended).  Join roster delivery: for every join-room handled for a
connected participant (leaving its current room first when it is in one),
each other current member of the target room with an open socket receives
exactly one `participant-joined{participantId, nickname}` notification and
nobody else receives one; the joining participant — and only it — receives
the roster of the other current members, never including itself, as an
`existing-participants` message when that roster is non-empty, and when
the target room is new or otherwise empty no `existing-participants`
message is sent at all. -/
theorem join_roster_delivery (s : SState) (pid rid : String) (p : SParticipant)
    (nick? : Option String)
    (hp : alGet s.participants pid = some p) (hw : p.wsOpen = true) (hrid : rid ≠ "")
    (hnd : ((alGet s.rooms rid).getD []).Nodup)
    (hcoh : p.roomId = some rid ∨ pid ∉ (alGet s.rooms rid).getD [])
    (hall : ∀ q ∈ setDelete ((alGet s.rooms rid).getD []) pid,
        ∃ pq, alGet s.participants q = some pq ∧ pq.wsOpen = true) :
    (∀ q ∈ setDelete ((alGet s.rooms rid).getD []) pid,
        ((handleJoinRoom s pid (some rid) nick?).2.count
          (q, ServerMsg.participantJoined pid (nickOr nick?))) = 1) ∧
    (∀ q n, q ∉ setDelete ((alGet s.rooms rid).getD []) pid →
        (q, ServerMsg.participantJoined pid n) ∉ (handleJoinRoom s pid (some rid) nick?).2) ∧
    (setDelete ((alGet s.rooms rid).getD []) pid ≠ [] →
        ((handleJoinRoom s pid (some rid) nick?).2.count
          (pid, ServerMsg.existingParticipants
            ((setDelete ((alGet s.rooms rid).getD []) pid).map
              (fun q => (q, rosterNick s.participants q))))) = 1) ∧
    (setDelete ((alGet s.rooms rid).getD []) pid = [] →
        ∀ roster, (pid, ServerMsg.existingParticipants roster)
          ∉ (handleJoinRoom s pid (some rid) nick?).2) ∧
    (∀ q roster, q ≠ pid →
        (q, ServerMsg.existingParticipants roster)
          ∉ (handleJoinRoom s pid (some rid) nick?).2) := by
  have hmems := handleLeaveRoom_room_membership hp hcoh
  have hpidnot1 : pid ∉ (alGet (handleLeaveRoom s pid).1.rooms rid).getD [] := by
    rw [hmems]
    intro hmem
    exact (mem_setDelete.mp hmem).2 rfl
  have hout := handleJoinRoom_out_form_general s pid rid p nick? hp hw hrid hpidnot1
  rw [hmems] at hout
  have hmc : (setDelete ((alGet s.rooms rid).getD []) pid).map
      (fun q => (q, rosterNick (handleLeaveRoom s pid).1.participants q))
      = (setDelete ((alGet s.rooms rid).getD []) pid).map
          (fun q => (q, rosterNick s.participants q)) := by
    refine List.map_congr_left (fun q hq => ?_)
    have hqp : q ≠ pid := (mem_setDelete.mp hq).2
    simp [rosterNick, handleLeaveRoom_record_other hqp]
  rw [hmc] at hout
  rw [hout]
  have hnd' : (setDelete ((alGet s.rooms rid).getD []) pid).Nodup :=
    List.Nodup.filter _ hnd
  refine ⟨?_, ?_, ?_, ?_, ?_⟩
  · intro q hq
    obtain ⟨pq, hpq, hpw⟩ := hall q hq
    have hqp : q ≠ pid := (mem_setDelete.mp hq).2
    have hqp' : pid ≠ q := fun hh => hqp hh.symm
    rw [List.count_append, List.count_append, List.count_append]
    have cL : List.count (q, ServerMsg.participantJoined pid (nickOr nick?))
        (handleLeaveRoom s pid).2 = 0 := by
      rw [List.count_eq_zero]
      intro hmem
      rcases handleLeaveRoom_out_shape hmem with hsh | ⟨r, hsh⟩
      · simp at hsh
      · simp at hsh
    have c1 : List.count (q, ServerMsg.participantJoined pid (nickOr nick?))
        [(pid, ServerMsg.roomJoined rid pid)] = 0 := by simp
    have c2 : ((setDelete ((alGet s.rooms rid).getD []) pid).filterMap (fun q' =>
        if some pid = some q' then none
        else
          match alGet (alSet (handleLeaveRoom s pid).1.participants pid
              ⟨p.wsOpen, some rid, nickOr nick?⟩) q' with
          | some pq' =>
            if pq'.wsOpen then some (q', ServerMsg.participantJoined pid (nickOr nick?))
            else none
          | none => none)).count (q, ServerMsg.participantJoined pid (nickOr nick?)) = 1 := by
      rw [count_filterMap_keyed _
        (broadcast_fun_keyed
          (alSet (handleLeaveRoom s pid).1.participants pid
            ⟨p.wsOpen, some rid, nickOr nick?⟩)
          (ServerMsg.participantJoined pid (nickOr nick?)) (some pid)) hnd']
      simp [hq, hqp', alGet_alSet_ne _ _ _ _ hqp',
        handleLeaveRoom_record_other hqp, hpq, hpw]
    have c3 : (if 0 < (setDelete ((alGet s.rooms rid).getD []) pid).length
        then [(pid, ServerMsg.existingParticipants
                ((setDelete ((alGet s.rooms rid).getD []) pid).map
                  (fun q' => (q', rosterNick s.participants q'))))]
        else []).count (q, ServerMsg.participantJoined pid (nickOr nick?)) = 0 := by
      by_cases hc : 0 < (setDelete ((alGet s.rooms rid).getD []) pid).length <;> simp [hc]
    rw [cL, c1, c2, c3]
  · intro q n hq hmem
    rcases List.mem_append.mp hmem with hmem | hmem
    · rcases List.mem_append.mp hmem with hmem | hmem
      · rcases List.mem_append.mp hmem with hmem | hmem
        · rcases handleLeaveRoom_out_shape hmem with hsh | ⟨r, hsh⟩
          · simp at hsh
          · simp at hsh
        · simp at hmem
      · obtain ⟨x, hx, hfx⟩ := List.mem_filterMap.mp hmem
        have h1 := broadcast_fun_keyed
          (alSet (handleLeaveRoom s pid).1.participants pid
            ⟨p.wsOpen, some rid, nickOr nick?⟩)
          (ServerMsg.participantJoined pid (nickOr nick?)) (some pid) x _ hfx
        rw [← h1] at hx
        exact hq hx
    · by_cases hc : 0 < (setDelete ((alGet s.rooms rid).getD []) pid).length <;>
        simp [hc] at hmem
  · intro hne
    have hlen : 0 < (setDelete ((alGet s.rooms rid).getD []) pid).length :=
      List.length_pos.mpr hne
    rw [List.count_append, List.count_append, List.count_append]
    have cL : List.count
        (pid, ServerMsg.existingParticipants
          ((setDelete ((alGet s.rooms rid).getD []) pid).map
            (fun q => (q, rosterNick s.participants q))))
        (handleLeaveRoom s pid).2 = 0 := by
      rw [List.count_eq_zero]
      intro hmem
      rcases handleLeaveRoom_out_shape hmem with hsh | ⟨r, hsh⟩
      · simp at hsh
      · simp at hsh
    have c1 : List.count
        (pid, ServerMsg.existingParticipants
          ((setDelete ((alGet s.rooms rid).getD []) pid).map
            (fun q => (q, rosterNick s.participants q))))
        [(pid, ServerMsg.roomJoined rid pid)] = 0 := by simp
    have c2 : ((setDelete ((alGet s.rooms rid).getD []) pid).filterMap (fun q' =>
        if some pid = some q' then none
        else
          match alGet (alSet (handleLeaveRoom s pid).1.participants pid
              ⟨p.wsOpen, some rid, nickOr nick?⟩) q' with
          | some pq' =>
            if pq'.wsOpen then some (q', ServerMsg.participantJoined pid (nickOr nick?))
            else none
          | none => none)).count
        (pid, ServerMsg.existingParticipants
          ((setDelete ((alGet s.rooms rid).getD []) pid).map
            (fun q => (q, rosterNick s.participants q))))
        = 0 := by
      refine count_filterMap_zero _ _ (fun x hfx => ?_)
      have h2 := broadcast_fun_msg
        (alSet (handleLeaveRoom s pid).1.participants pid
          ⟨p.wsOpen, some rid, nickOr nick?⟩)
        (ServerMsg.participantJoined pid (nickOr nick?)) (some pid) x _ hfx
      simp at h2
    have c3 : (if 0 < (setDelete ((alGet s.rooms rid).getD []) pid).length
        then [(pid, ServerMsg.existingParticipants
                ((setDelete ((alGet s.rooms rid).getD []) pid).map
                  (fun q' => (q', rosterNick s.participants q'))))]
        else []).count
        (pid, ServerMsg.existingParticipants
          ((setDelete ((alGet s.rooms rid).getD []) pid).map
            (fun q => (q, rosterNick s.participants q))))
        = 1 := by
      simp [hlen]
    rw [cL, c1, c2, c3]
  · intro hnil roster hmem
    rw [hnil] at hmem
    simp at hmem
    rcases handleLeaveRoom_out_shape hmem with hsh | ⟨r, hsh⟩
    · simp at hsh
    · simp at hsh
  · intro q roster hqp hmem
    rcases List.mem_append.mp hmem with hmem | hmem
    · rcases List.mem_append.mp hmem with hmem | hmem
      · rcases List.mem_append.mp hmem with hmem | hmem
        · rcases handleLeaveRoom_out_shape hmem with hsh | ⟨r, hsh⟩
          · simp at hsh
          · simp at hsh
        · simp at hmem
      · obtain ⟨x, hx, hfx⟩ := List.mem_filterMap.mp hmem
        have h2 := broadcast_fun_msg
          (alSet (handleLeaveRoom s pid).1.participants pid
            ⟨p.wsOpen, some rid, nickOr nick?⟩)
          (ServerMsg.participantJoined pid (nickOr nick?)) (some pid) x _ hfx
        simp at h2
    · by_cases hc : 0 < (setDelete ((alGet s.rooms rid).getD []) pid).length <;>
        simp [hc] at hmem
      exact hqp hmem.1

/-- C2 counterexample: the first participant joining a fresh room receives
only `room-joined` — no `existing-participants` message at all, where the
claim promises `existing-participants` with an empty list. -/
theorem joinRoom_empty_roster_cex :
    (handleJoinRoom (serverStep initState (.connect "p1")).1 "p1"
        (some "r1") (some "Ann")).2
      = [("p1", .roomJoined "r1" "p1")] := by
  decide

theorem join_roster_delivery_witness :
    ((handleJoinRoom (⟨[("r1", ["b", "a"])],
        [("b", ⟨true, some "r1", "Bob"⟩), ("a", ⟨true, some "r1", "Ann"⟩)]⟩ : SState)
        "a" (some "r1") (some "Ann")).2.count
      ("b", ServerMsg.participantJoined "a" (nickOr (some "Ann")))) = 1 ∧
    ((handleJoinRoom (⟨[("r1", ["b", "a"])],
        [("b", ⟨true, some "r1", "Bob"⟩), ("a", ⟨true, some "r1", "Ann"⟩)]⟩ : SState)
        "a" (some "r1") (some "Ann")).2.count
      ("a", ServerMsg.existingParticipants
        ((setDelete ((alGet (⟨[("r1", ["b", "a"])],
            [("b", ⟨true, some "r1", "Bob"⟩), ("a", ⟨true, some "r1", "Ann"⟩)]⟩ : SState).rooms
            "r1").getD []) "a").map (fun q => (q,
          rosterNick [("b", ⟨true, some "r1", "Bob"⟩), ("a", ⟨true, some "r1", "Ann"⟩)] q))))) = 1 := by
  have h := join_roster_delivery
    (⟨[("r1", ["b", "a"])],
      [("b", ⟨true, some "r1", "Bob"⟩), ("a", ⟨true, some "r1", "Ann"⟩)]⟩ : SState)
    "a" "r1" ⟨true, some "r1", "Ann"⟩ (some "Ann")
    (by decide) rfl (by decide) (by decide) (Or.inl rfl)
    (by
      intro q hq
      have hq' : q ∈ ["b"] := hq
      rw [List.mem_singleton] at hq'
      subst hq'
      exact ⟨⟨true, some "r1", "Bob"⟩, rfl, rfl⟩)
  exact ⟨h.1 "b" (by decide), h.2.2.1 (by decide)⟩

/-! ### Session Client: SignalingClient (WebSocket signaling client)

The client state keeps the class fields of `SignalingClient`
(`this.ws`, `reconnectAttempts`, `isConnecting`, `isIntentionalClose`)
plus the environment bookkeeping: every WebSocket object ever constructed
(in creation order, each with its ready state and whether its close event
has already fired) and the number of reconnect timers currently pending
(the source never cancels a `setTimeout`).  `connect()` reassigns
`this.ws` without detaching the handlers of the previous socket, so open,
close and error events address sockets by index: the still-pending handler of a replaced
socket fires later and mutates the shared client state,
exactly as in the source. -/

def maxReconnectAttempts : Nat := 5

def reconnectDelay : Nat := 1000

inductive WSReady
  | connecting
  | opened
  | closed
deriving DecidableEq

structure WSSocket where
  state : WSReady
  closeFired : Bool
deriving DecidableEq

structure SClient where
  sockets : List WSSocket
  wsIdx : Option Nat
  reconnectAttempts : Nat
  isConnecting : Bool
  isIntentionalClose : Bool
  pendingTimers : Nat
deriving DecidableEq

/-- Everything the surrounding program can observe from one step: promise
resolutions/rejections of `connect()`, handler callbacks, transport
creation, and reconnect scheduling (attempt number and delay in ms). -/
inductive ClientAction
  | resolvedAlreadyOpen
  | rejectedAlreadyConnecting
  | createdTransport
  | notifiedConnected
  | notifiedDisconnected
  | scheduledReconnect (attempt : Nat) (delayMs : Nat)
deriving DecidableEq

def initClient : SClient :=
  { sockets := [], wsIdx := none, reconnectAttempts := 0,
    isConnecting := false, isIntentionalClose := false, pendingTimers := 0 }

/-- `this.ws && this.ws.readyState`. -/
def currentState (c : SClient) : Option WSReady :=
  match c.wsIdx with
  | some i => (c.sockets[i]?).map WSSocket.state
  | none => none

/-- `connect()`: resolve immediately if the referenced socket is open,
reject a concurrent attempt, otherwise construct a fresh WebSocket and
point `this.ws` at it — the previous socket keeps its handlers. -/
def connectCall (c : SClient) : SClient × List ClientAction :=
  if currentState c = some WSReady.opened then (c, [.resolvedAlreadyOpen])
  else if c.isConnecting then (c, [.rejectedAlreadyConnecting])
  else
    ({ c with
        sockets := c.sockets ++ [⟨WSReady.connecting, false⟩],
        wsIdx := some c.sockets.length,
        isConnecting := true,
        isIntentionalClose := false },
     [.createdTransport])

/-- `scheduleReconnect()`: bump the attempt counter, compute
`reconnectDelay * 2^(attempts - 1)` and start a timer for it. -/
def scheduleReconnect (c : SClient) : SClient × List ClientAction :=
  let c' := { c with
    reconnectAttempts := c.reconnectAttempts + 1,
    pendingTimers := c.pendingTimers + 1 }
  (c', [.scheduledReconnect c'.reconnectAttempts
          (reconnectDelay * 2 ^ (c'.reconnectAttempts - 1))])

/-- The `onopen` handler of socket `i` (only a connecting socket can
open); it mutates the shared client state whether or not the socket is
still the one referenced by `this.ws`. -/
def onOpenEvent (c : SClient) (i : Nat) : SClient × List ClientAction :=
  match c.sockets[i]? with
  | some ⟨WSReady.connecting, false⟩ =>
    ({ c with
        sockets := c.sockets.set i ⟨WSReady.opened, false⟩,
        isConnecting := false,
        reconnectAttempts := 0 },
     [.notifiedConnected])
  | _ => (c, [])

/-- The `onclose` handler of socket `i` (fires once per socket): notify,
then reconnect unless the close was intentional or the attempts are
spent — also when the socket was replaced long ago. -/
def onCloseEvent (c : SClient) (i : Nat) : SClient × List ClientAction :=
  match c.sockets[i]? with
  | some ⟨_, false⟩ =>
    let c1 := { c with
      sockets := c.sockets.set i ⟨WSReady.closed, true⟩,
      isConnecting := false }
    if !c1.isIntentionalClose && c1.reconnectAttempts < maxReconnectAttempts then
      let sr := scheduleReconnect c1
      (sr.1, .notifiedDisconnected :: sr.2)
    else (c1, [.notifiedDisconnected])
  | _ => (c, [])

/-- The `onerror` handler of socket `i`: when it fires the connection has
already failed (the close event follows separately); it clears
`isConnecting` and rejects the pending `connect()` promise — a rejection
that reconnect-timer calls swallow with a logged `.catch`. -/
def onErrorEvent (c : SClient) (i : Nat) : SClient × List ClientAction :=
  match c.sockets[i]? with
  | some ⟨_, false⟩ =>
    ({ c with
        sockets := c.sockets.set i ⟨WSReady.closed, false⟩,
        isConnecting := false }, [])
  | _ => (c, [])

/-- `disconnect()`: mark the close intentional, call `close()` on the
referenced socket (it dies; its close event, if still pending, fires
later through `onCloseEvent`) and null out `this.ws`. -/
def disconnectCall (c : SClient) : SClient × List ClientAction :=
  let c1 := { c with isIntentionalClose := true }
  match c1.wsIdx with
  | some i =>
    ({ c1 with
        sockets := match c1.sockets[i]? with
                   | some sk => c1.sockets.set i ⟨WSReady.closed, sk.closeFired⟩
                   | none => c1.sockets,
        wsIdx := none }, [])
  | none => (c1, [])

inductive ClientEvent
  | connectRequest
  | socketOpened (i : Nat)
  | socketClosed (i : Nat)
  | socketErrored (i : Nat)
  | disconnectRequest
  | timerFired
deriving DecidableEq

/-- One environment event processed by the client.  A reconnect timer
that fires calls `connect()` (its rejection, if any, is only logged). -/
def clientStep (c : SClient) : ClientEvent → SClient × List ClientAction
  | .connectRequest => connectCall c
  | .socketOpened i => onOpenEvent c i
  | .socketClosed i => onCloseEvent c i
  | .socketErrored i => onErrorEvent c i
  | .disconnectRequest => disconnectCall c
  | .timerFired =>
    if c.pendingTimers = 0 then (c, [])
    else connectCall { c with pendingTimers := c.pendingTimers - 1 }

def clientRun : SClient → List ClientEvent → SClient × List ClientAction
  | c, [] => (c, [])
  | c, e :: es =>
    let step := clientStep c e
    let rest := clientRun step.1 es
    (rest.1, step.2 ++ rest.2)

/-- A transport is live while it is connecting or open. -/
def wsLive : WSReady → Bool
  | .connecting => true
  | .opened => true
  | .closed => false

/-- Number of live transports among all the WebSockets ever created. -/
def liveTransports (c : SClient) : Nat :=
  (c.sockets.filter (fun sk => wsLive sk.state)).length

def isOpenEvent : ClientEvent → Bool
  | .socketOpened _ => true
  | _ => false

/-- The one state property the connect guard can rely on: whenever the
referenced socket is open, no connect attempt is marked in flight. -/
def ClientInv (c : SClient) : Prop :=
  ∀ i sk, c.wsIdx = some i → c.sockets[i]? = some sk →
    sk.state = WSReady.opened → c.isConnecting = false

theorem clientInv_init : ClientInv initClient := by
  intro i sk hi
  simp [initClient] at hi

theorem clientInv_connectCall {c : SClient} (h : ClientInv c) :
    ClientInv (connectCall c).1 := by
  unfold connectCall
  by_cases ho : currentState c = some WSReady.opened
  · simpa [ho] using h
  · by_cases hc : c.isConnecting = true
    · rw [if_neg ho, if_pos hc]
      exact h
    · rw [if_neg ho, if_neg hc]
      intro i sk hi hsk hst
      have hi' : i = c.sockets.length := (Option.some.inj hi).symm
      subst hi'
      rw [List.getElem?_concat_length] at hsk
      cases hsk
      cases hst

theorem onOpenEvent_cases (c : SClient) (i : Nat) :
    (onOpenEvent c i).1.isConnecting = false ∨ (onOpenEvent c i).1 = c := by
  unfold onOpenEvent
  cases hg : c.sockets[i]? with
  | none => exact Or.inr rfl
  | some sk =>
    obtain ⟨st, b⟩ := sk
    cases st with
    | connecting =>
      cases b with
      | false => exact Or.inl rfl
      | true => exact Or.inr rfl
    | opened => exact Or.inr rfl
    | closed => exact Or.inr rfl

theorem onCloseEvent_cases (c : SClient) (i : Nat) :
    (onCloseEvent c i).1.isConnecting = false ∨ (onCloseEvent c i).1 = c := by
  unfold onCloseEvent
  cases hg : c.sockets[i]? with
  | none => exact Or.inr rfl
  | some sk =>
    obtain ⟨st, b⟩ := sk
    cases b with
    | true => exact Or.inr rfl
    | false =>
      by_cases hgd : (!c.isIntentionalClose
          && decide (c.reconnectAttempts < maxReconnectAttempts)) = true
      · left
        simp [hgd, scheduleReconnect]
      · left
        simp [hgd]

theorem onErrorEvent_cases (c : SClient) (i : Nat) :
    (onErrorEvent c i).1.isConnecting = false ∨ (onErrorEvent c i).1 = c := by
  unfold onErrorEvent
  cases hg : c.sockets[i]? with
  | none => exact Or.inr rfl
  | some sk =>
    obtain ⟨st, b⟩ := sk
    cases b with
    | true => exact Or.inr rfl
    | false => exact Or.inl rfl

theorem disconnectCall_wsIdx (c : SClient) : (disconnectCall c).1.wsIdx = none := by
  unfold disconnectCall
  cases hw : c.wsIdx with
  | none => rfl
  | some i => rfl

theorem clientInv_step {c : SClient} (e : ClientEvent) (h : ClientInv c) :
    ClientInv (clientStep c e).1 := by
  cases e with
  | connectRequest => exact clientInv_connectCall h
  | socketOpened i =>
    rcases onOpenEvent_cases c i with hic | heq
    · intro j sk hj hsk hst
      exact hic
    · rw [show (clientStep c (ClientEvent.socketOpened i)).1 = (onOpenEvent c i).1 from rfl,
        heq]
      exact h
  | socketClosed i =>
    rcases onCloseEvent_cases c i with hic | heq
    · intro j sk hj hsk hst
      exact hic
    · rw [show (clientStep c (ClientEvent.socketClosed i)).1 = (onCloseEvent c i).1 from rfl,
        heq]
      exact h
  | socketErrored i =>
    rcases onErrorEvent_cases c i with hic | heq
    · intro j sk hj hsk hst
      exact hic
    · rw [show (clientStep c (ClientEvent.socketErrored i)).1 = (onErrorEvent c i).1 from rfl,
        heq]
      exact h
  | disconnectRequest =>
    intro j sk hj hsk hst
    rw [show (clientStep c ClientEvent.disconnectRequest).1 = (disconnectCall c).1 from rfl,
      disconnectCall_wsIdx] at hj
    cases hj
  | timerFired =>
    unfold clientStep
    by_cases hp : c.pendingTimers = 0
    · simpa [hp] using h
    · simp only [hp, if_false]
      exact clientInv_connectCall (fun i sk hi hsk hst => h i sk hi hsk hst)

theorem clientInv_run {c : SClient} (es : List ClientEvent) (h : ClientInv c) :
    ClientInv (clientRun c es).1 := by
  induction es generalizing c with
  | nil => simpa [clientRun] using h
  | cons e es ih => simpa [clientRun] using ih (clientInv_step e h)

/-! ### Claims C6, C7, C4 about the Session Client -/

theorem connectCall_no_schedule (c : SClient) (n d : Nat) :
    ClientAction.scheduledReconnect n d ∉ (connectCall c).2 := by
  unfold connectCall
  by_cases ho : currentState c = some WSReady.opened
  · simp [ho]
  · by_cases hc : c.isConnecting
    · simp [ho, hc]
    · simp [ho, hc]

theorem connectCall_counters (c : SClient) :
    (connectCall c).1.reconnectAttempts = c.reconnectAttempts ∧
    (connectCall c).1.pendingTimers = c.pendingTimers := by
  unfold connectCall
  by_cases ho : currentState c = some WSReady.opened
  · simp [ho]
  · by_cases hc : c.isConnecting
    · simp [ho, hc]
    · simp [ho, hc]

/-- Every reconnect scheduled by any single step carries a 1-based attempt
number within the maximum and the exact exponential delay. -/
theorem backoff_schedule_step (c : SClient) (e : ClientEvent) (n d : Nat)
    (hmem : ClientAction.scheduledReconnect n d ∈ (clientStep c e).2) :
    1 ≤ n ∧ n ≤ maxReconnectAttempts ∧ d = reconnectDelay * 2 ^ (n - 1) := by
  cases e with
  | connectRequest => exact absurd hmem (connectCall_no_schedule _ n d)
  | socketOpened i =>
    cases hg : c.sockets[i]? with
    | none => simp [clientStep, onOpenEvent, hg] at hmem
    | some sk =>
      obtain ⟨st, b⟩ := sk
      cases st <;> cases b <;> simp [clientStep, onOpenEvent, hg] at hmem
  | socketErrored i =>
    cases hg : c.sockets[i]? with
    | none => simp [clientStep, onErrorEvent, hg] at hmem
    | some sk =>
      obtain ⟨st, b⟩ := sk
      cases b <;> simp [clientStep, onErrorEvent, hg] at hmem
  | disconnectRequest =>
    cases hw : c.wsIdx with
    | none => simp [clientStep, disconnectCall, hw] at hmem
    | some i => simp [clientStep, disconnectCall, hw] at hmem
  | timerFired =>
    by_cases hp : c.pendingTimers = 0
    · simp [clientStep, hp] at hmem
    · simp only [clientStep, hp, if_false] at hmem
      exact absurd hmem (connectCall_no_schedule _ n d)
  | socketClosed i =>
    cases hg : c.sockets[i]? with
    | none => simp [clientStep, onCloseEvent, hg] at hmem
    | some sk =>
      obtain ⟨st, b⟩ := sk
      cases b with
      | true => simp [clientStep, onCloseEvent, hg] at hmem
      | false =>
        by_cases hgd : (!c.isIntentionalClose
            && decide (c.reconnectAttempts < maxReconnectAttempts)) = true
        · have hra : c.reconnectAttempts < maxReconnectAttempts := by
            rw [Bool.and_eq_true] at hgd
            exact of_decide_eq_true hgd.2
          simp only [clientStep, onCloseEvent, hg, hgd, if_true, scheduleReconnect] at hmem
          simp at hmem
          obtain ⟨hn, hd⟩ := hmem
          subst hn
          subst hd
          refine ⟨by omega, by omega, rfl⟩
        · simp [clientStep, onCloseEvent, hg, hgd] at hmem

/-- C6.  Exponential backoff schedule: in any run of the Session Client,
every scheduled reconnect attempt `n` is 1-based, never exceeds the fixed
maximum of 5, and its delay is exactly `base * 2^(n-1)` with the base
1000 ms. -/
theorem reconnect_backoff_schedule (c : SClient) (es : List ClientEvent) (n d : Nat)
    (hmem : ClientAction.scheduledReconnect n d ∈ (clientRun c es).2) :
    1 ≤ n ∧ n ≤ maxReconnectAttempts ∧ d = reconnectDelay * 2 ^ (n - 1) := by
  induction es generalizing c with
  | nil => simp [clientRun] at hmem
  | cons e es ih =>
    simp only [clientRun, List.mem_append] at hmem
    rcases hmem with hmem | hmem
    · exact backoff_schedule_step c e n d hmem
    · exact ih _ hmem

theorem reconnect_backoff_schedule_witness :
    1 ≤ 1 ∧ 1 ≤ maxReconnectAttempts ∧ 1000 = reconnectDelay * 2 ^ (1 - 1) :=
  reconnect_backoff_schedule initClient [.connectRequest, .socketClosed 0] 1 1000 (by decide)

/-- C7 counterexample: the guard flag is clobbered by the stale close
handler of a replaced socket.  After connect (socket 0), an error on
socket 0, a second connect (socket 1, CONNECTING), the close event of socket 0
fires and clears `isConnecting`; a further `connect()` call — made while
the attempt of socket 1 is still in flight — is then accepted, creates socket
2 and leaves two live transports. -/
theorem stale_close_double_transport_cex :
    ((clientRun initClient
        [.connectRequest, .socketErrored 0, .connectRequest, .socketClosed 0]).1.sockets[1]?
      = some ⟨WSReady.connecting, false⟩) ∧
    (clientStep (clientRun initClient
        [.connectRequest, .socketErrored 0, .connectRequest, .socketClosed 0]).1
        ClientEvent.connectRequest).2
      = [ClientAction.createdTransport] ∧
    liveTransports (clientStep (clientRun initClient
        [.connectRequest, .socketErrored 0, .connectRequest, .socketClosed 0]).1
        ClientEvent.connectRequest).1 = 2 := by
  decide

/-- C7 (amended).  Single-connect guard: at every reachable client state
in which the in-flight flag `isConnecting` is set, a `connect()` call is
rejected with the already-connecting error and leaves the state — in
particular the set of transports — completely unchanged.  The flag is,
however, not a reliable witness of an attempt in flight: the stale close
event of a replaced socket clears it, after which a concurrent
`connect()` during a still-connecting attempt is accepted and a second
live transport is created. -/
theorem single_connect_guard (es : List ClientEvent)
    (hc : (clientRun initClient es).1.isConnecting = true) :
    connectCall (clientRun initClient es).1
      = ((clientRun initClient es).1, [.rejectedAlreadyConnecting]) := by
  have hInv := clientInv_run es clientInv_init
  unfold connectCall
  have ho : ¬ currentState (clientRun initClient es).1 = some WSReady.opened := by
    intro hh
    unfold currentState at hh
    cases hw : (clientRun initClient es).1.wsIdx with
    | none => rw [hw] at hh; cases hh
    | some i =>
      simp only [hw] at hh
      cases hg : (clientRun initClient es).1.sockets[i]? with
      | none => rw [hg] at hh; cases hh
      | some sk =>
        rw [hg] at hh
        simp only [Option.map_some', Option.some.injEq] at hh
        rw [hInv i sk hw hg hh] at hc
        cases hc
  rw [if_neg ho, if_pos hc]

theorem single_connect_guard_witness :
    connectCall (clientRun initClient [ClientEvent.connectRequest]).1
      = ((clientRun initClient [ClientEvent.connectRequest]).1,
         [.rejectedAlreadyConnecting]) :=
  single_connect_guard [ClientEvent.connectRequest] (by decide)

/-- After the attempts are spent and no timer is pending, a single
non-open event neither schedules a reconnect nor revives the counters —
whichever socket, current or replaced, it addresses. -/
theorem exhausted_step (c : SClient) (e : ClientEvent) (he : isOpenEvent e = false)
    (ha : maxReconnectAttempts ≤ c.reconnectAttempts) (hpt : c.pendingTimers = 0) :
    (∀ n d, ClientAction.scheduledReconnect n d ∉ (clientStep c e).2) ∧
    maxReconnectAttempts ≤ (clientStep c e).1.reconnectAttempts ∧
    (clientStep c e).1.pendingTimers = 0 := by
  cases e with
  | connectRequest =>
    refine ⟨fun n d => connectCall_no_schedule _ n d, ?_, ?_⟩
    · rw [show (clientStep c ClientEvent.connectRequest).1 = (connectCall c).1 from rfl,
        (connectCall_counters _).1]
      exact ha
    · rw [show (clientStep c ClientEvent.connectRequest).1 = (connectCall c).1 from rfl,
        (connectCall_counters _).2]
      exact hpt
  | socketOpened i => simp [isOpenEvent] at he
  | socketErrored i =>
    cases hg : c.sockets[i]? with
    | none =>
      exact ⟨fun n d => by simp [clientStep, onErrorEvent, hg],
        by simpa [clientStep, onErrorEvent, hg] using ha,
        by simpa [clientStep, onErrorEvent, hg] using hpt⟩
    | some sk =>
      obtain ⟨st, b⟩ := sk
      cases b with
      | false =>
        exact ⟨fun n d => by simp [clientStep, onErrorEvent, hg],
          by simpa [clientStep, onErrorEvent, hg] using ha,
          by simpa [clientStep, onErrorEvent, hg] using hpt⟩
      | true =>
        exact ⟨fun n d => by simp [clientStep, onErrorEvent, hg],
          by simpa [clientStep, onErrorEvent, hg] using ha,
          by simpa [clientStep, onErrorEvent, hg] using hpt⟩
  | disconnectRequest =>
    cases hw : c.wsIdx with
    | none =>
      exact ⟨fun n d => by simp [clientStep, disconnectCall, hw],
        by simpa [clientStep, disconnectCall, hw] using ha,
        by simpa [clientStep, disconnectCall, hw] using hpt⟩
    | some i =>
      exact ⟨fun n d => by simp [clientStep, disconnectCall, hw],
        by simpa [clientStep, disconnectCall, hw] using ha,
        by simpa [clientStep, disconnectCall, hw] using hpt⟩
  | timerFired =>
    have hpt' : c.pendingTimers = 0 := hpt
    refine ⟨fun n d => by simp [clientStep, hpt'], ?_, ?_⟩
    · simpa [clientStep, hpt'] using ha
    · simp [clientStep, hpt']
  | socketClosed i =>
    cases hg : c.sockets[i]? with
    | none =>
      exact ⟨fun n d => by simp [clientStep, onCloseEvent, hg],
        by simpa [clientStep, onCloseEvent, hg] using ha,
        by simpa [clientStep, onCloseEvent, hg] using hpt⟩
    | some sk =>
      obtain ⟨st, b⟩ := sk
      cases b with
      | true =>
        exact ⟨fun n d => by simp [clientStep, onCloseEvent, hg],
          by simpa [clientStep, onCloseEvent, hg] using ha,
          by simpa [clientStep, onCloseEvent, hg] using hpt⟩
      | false =>
        have hgd : (!c.isIntentionalClose
            && decide (c.reconnectAttempts < maxReconnectAttempts)) = false := by
          have hlt : ¬ c.reconnectAttempts < maxReconnectAttempts := by omega
          simp [hlt]
        refine ⟨fun n d => ?_, ?_, ?_⟩
        · simp [clientStep, onCloseEvent, hg, hgd]
        · simpa [clientStep, onCloseEvent, hg, hgd] using ha
        · simpa [clientStep, onCloseEvent, hg, hgd] using hpt

/-- C4 (amended).  After the maximum number of consecutive unintended
closes, the Session Client stops scheduling reconnect attempts and — as
long as no socket successfully opens — never schedules one again; no
terminal connectivity error is surfaced to the caller, the client simply
stays quiet (only the generic disconnected callback fires on the final
close, as on every close). -/
theorem reconnect_exhaustion_stops (c : SClient)
    (ha : maxReconnectAttempts ≤ c.reconnectAttempts) (hpt : c.pendingTimers = 0)
    (es : List ClientEvent) (hno : es.all (fun e => !(isOpenEvent e)) = true) :
    (∀ n d, ClientAction.scheduledReconnect n d ∉ (clientRun c es).2) ∧
    maxReconnectAttempts ≤ (clientRun c es).1.reconnectAttempts ∧
    (clientRun c es).1.pendingTimers = 0 := by
  induction es generalizing c with
  | nil => exact ⟨fun n d => by simp [clientRun], ha, hpt⟩
  | cons e es ih =>
    rw [List.all_cons, Bool.and_eq_true] at hno
    have hne : isOpenEvent e = false := by
      have := hno.1
      simpa using this
    obtain ⟨hs1, hs2, hs3⟩ := exhausted_step c e hne ha hpt
    obtain ⟨hr1, hr2, hr3⟩ := ih (clientStep c e).1 hs2 hs3 hno.2
    refine ⟨fun n d hmem => ?_, hr2, hr3⟩
    simp only [clientRun, List.mem_append] at hmem
    rcases hmem with hmem | hmem
    · exact hs1 n d hmem
    · exact hr1 n d hmem

/-- The run that exhausts every reconnect attempt: the initial connect
creates socket 0; five failure cycles follow (socket k errors, its close
schedules retry k+1, the timer fires a connect creating socket k+1), and
socket 5 of the last attempt errors. -/
def exhaustEvents : List ClientEvent :=
  [.connectRequest,
   .socketErrored 0, .socketClosed 0, .timerFired,
   .socketErrored 1, .socketClosed 1, .timerFired,
   .socketErrored 2, .socketClosed 2, .timerFired,
   .socketErrored 3, .socketClosed 3, .timerFired,
   .socketErrored 4, .socketClosed 4, .timerFired,
   .socketErrored 5]

/-- C4 counterexample: with all five reconnect attempts consumed, the
next unintended close emits exactly the same generic disconnected
callback as any transient close — no reconnect is scheduled and no
terminal connectivity error of any kind is surfaced to the caller. -/
theorem reconnect_exhaustion_silent_cex :
    (clientRun initClient exhaustEvents).1.reconnectAttempts = maxReconnectAttempts ∧
    (clientStep (clientRun initClient exhaustEvents).1 (ClientEvent.socketClosed 5)).2
      = [ClientAction.notifiedDisconnected] ∧
    (clientStep (clientRun initClient exhaustEvents).1
        (ClientEvent.socketClosed 5)).1.pendingTimers = 0 := by
  decide

theorem reconnect_exhaustion_stops_witness :
    (∀ n d, ClientAction.scheduledReconnect n d
        ∉ (clientRun
            (clientRun initClient (exhaustEvents ++ [ClientEvent.socketClosed 5])).1
            [ClientEvent.timerFired, ClientEvent.connectRequest,
             ClientEvent.socketErrored 6, ClientEvent.socketClosed 6]).2) ∧
    maxReconnectAttempts
      ≤ (clientRun
          (clientRun initClient (exhaustEvents ++ [ClientEvent.socketClosed 5])).1
          [ClientEvent.timerFired, ClientEvent.connectRequest,
           ClientEvent.socketErrored 6, ClientEvent.socketClosed 6]).1.reconnectAttempts ∧
    (clientRun
        (clientRun initClient (exhaustEvents ++ [ClientEvent.socketClosed 5])).1
        [ClientEvent.timerFired, ClientEvent.connectRequest,
         ClientEvent.socketErrored 6, ClientEvent.socketClosed 6]).1.pendingTimers = 0 :=
  reconnect_exhaustion_stops _ (by decide) (by decide) _ (by decide)

/-! ### Peer Connection Orchestrator: WebRTCManager.ts with AudioManager

The orchestrator state keeps the `connections` map (peer id to the
`PeerConnection` record fields read by the functions under verification),
the `AudioManager`'s `remoteStreams` keys, and a trace of the peer ids on
whose connection object `peer.destroy()` was called. -/

structure RTCPeer where
  isConnected : Bool
  isInitiator : Bool
deriving DecidableEq

structure RTCState where
  connections : List (String × RTCPeer)
  remoteStreams : List String
  destroyedPeers : List String
deriving DecidableEq

/-- `AudioManager.removeRemoteStream(peerId)`: stop and drop the stream
if one is registered, otherwise do nothing. -/
def removeRemoteStream (streams : List String) (peerId : String) : List String :=
  streams.filter (fun q => q ≠ peerId)

/-- `WebRTCManager.closeConnection(peerId)`: when a record exists, destroy
the peer object, delete the map entry and detach the remote stream; when
none exists, do nothing. -/
def closeConnection (s : RTCState) (peerId : String) : RTCState :=
  match alGet s.connections peerId with
  | some _ =>
    { connections := alErase s.connections peerId,
      remoteStreams := removeRemoteStream s.remoteStreams peerId,
      destroyedPeers := s.destroyedPeers ++ [peerId] }
  | none => s

/-- `WebRTCManager.getConnection(peerId)`. -/
def getConnection (s : RTCState) (peerId : String) : Option RTCPeer :=
  alGet s.connections peerId

theorem mem_removeRemoteStream {streams : List String} {p q : String} :
    q ∈ removeRemoteStream streams p ↔ q ∈ streams ∧ q ≠ p := by
  simp [removeRemoteStream]

/-- C9.  Idempotent teardown: when a record for the peer exists,
`closeConnection` removes it from the connections map, destroys exactly
that connection object and detaches the peer's remote stream from the
media sink while leaving every other peer's entry alone; when no record
exists it is a complete no-op; and closing twice equals closing once. -/
theorem closeConnection_idempotent_teardown (s : RTCState) (peerId : String) :
    ((alGet s.connections peerId).isSome →
        alGet (closeConnection s peerId).connections peerId = none ∧
        peerId ∉ (closeConnection s peerId).remoteStreams ∧
        (closeConnection s peerId).destroyedPeers = s.destroyedPeers ++ [peerId] ∧
        (∀ q, q ≠ peerId →
          alGet (closeConnection s peerId).connections q = alGet s.connections q)) ∧
    (alGet s.connections peerId = none → closeConnection s peerId = s) ∧
    closeConnection (closeConnection s peerId) peerId = closeConnection s peerId := by
  refine ⟨?_, ?_, ?_⟩
  · intro hsome
    match hg : alGet s.connections peerId, hsome with
    | some p, _ =>
      unfold closeConnection
      rw [hg]
      refine ⟨alGet_alErase_self .., ?_, rfl, ?_⟩
      · intro hmem
        exact (mem_removeRemoteStream.mp hmem).2 rfl
      · intro q hq
        exact alGet_alErase_ne _ _ _ (fun hh => hq hh.symm)
  · intro hnone
    unfold closeConnection
    rw [hnone]
  · cases hg : alGet s.connections peerId with
    | none =>
      have h1 : closeConnection s peerId = s := by unfold closeConnection; rw [hg]
      rw [h1, h1]
    | some p =>
      have h1 : closeConnection s peerId =
          { connections := alErase s.connections peerId,
            remoteStreams := removeRemoteStream s.remoteStreams peerId,
            destroyedPeers := s.destroyedPeers ++ [peerId] } := by
        unfold closeConnection
        rw [hg]
      rw [h1]
      unfold closeConnection
      rw [show alGet (alErase s.connections peerId) peerId = none from
        alGet_alErase_self ..]

theorem closeConnection_idempotent_teardown_witness :
    (alGet ([("b", (⟨true, true⟩ : RTCPeer))]) "b").isSome ∧
    (alGet (closeConnection ⟨[("b", ⟨true, true⟩)], ["b"], []⟩ "b").connections "b" = none ∧
      "b" ∉ (closeConnection ⟨[("b", ⟨true, true⟩)], ["b"], []⟩ "b").remoteStreams ∧
      (closeConnection ⟨[("b", ⟨true, true⟩)], ["b"], []⟩ "b").destroyedPeers = [] ++ ["b"] ∧
      (∀ q, q ≠ "b" →
        alGet (closeConnection ⟨[("b", ⟨true, true⟩)], ["b"], []⟩ "b").connections q
          = alGet [("b", ⟨true, true⟩)] q)) ∧
    closeConnection (closeConnection ⟨[("b", ⟨true, true⟩)], ["b"], []⟩ "b") "b"
      = closeConnection ⟨[("b", ⟨true, true⟩)], ["b"], []⟩ "b" :=
  ⟨by decide,
   (closeConnection_idempotent_teardown ⟨[("b", ⟨true, true⟩)], ["b"], []⟩ "b").1 (by decide),
   (closeConnection_idempotent_teardown ⟨[("b", ⟨true, true⟩)], ["b"], []⟩ "b").2.2⟩

/-! ### C10: getAllConnections returns a fresh Map

To speak about object identity, Map objects are given explicit references
into a heap: `new Map(m)` allocates a fresh reference holding a copy of
the contents.  The manager holds the reference of its internal
`connections` map. -/

structure MapHeap where
  store : List (Nat × List (String × RTCPeer))
  nextRef : Nat
deriving DecidableEq

def heapGet (h : MapHeap) (r : Nat) : Option (List (String × RTCPeer)) :=
  alGet h.store r

/-- Allocate a fresh `Map` object with the given contents. -/
def heapAlloc (h : MapHeap) (m : List (String × RTCPeer)) : MapHeap × Nat :=
  (⟨h.store ++ [(h.nextRef, m)], h.nextRef + 1⟩, h.nextRef)

/-- Overwrite the contents of the `Map` object behind a reference — a
mutation such as an insertion into or a deletion from that map. -/
def heapSet (h : MapHeap) (r : Nat) (m : List (String × RTCPeer)) : MapHeap :=
  ⟨alSet h.store r m, h.nextRef⟩

/-- The manager's only heap-resident state: the reference to its internal
`connections` map. -/
structure ManagerH where
  connRef : Nat
deriving DecidableEq

/-- `WebRTCManager.getAllConnections()`: `return new Map(this.connections)`
— allocates a fresh map holding a copy of the internal contents and
returns its reference. -/
def getAllConnections (h : MapHeap) (mgr : ManagerH) : MapHeap × Nat :=
  heapAlloc h ((heapGet h mgr.connRef).getD [])

/-- `WebRTCManager.getConnection(peerId)` against the heap. -/
def getConnectionH (h : MapHeap) (mgr : ManagerH) (peerId : String) : Option RTCPeer :=
  alGet ((heapGet h mgr.connRef).getD []) peerId

/-- Heap well-formedness: every allocated reference is below `nextRef`. -/
def heapWF (h : MapHeap) : Bool :=
  h.store.all (fun rm => rm.1 < h.nextRef)

theorem heapGet_heapSet_ne (h : MapHeap) (r r' : Nat) (m : List (String × RTCPeer))
    (hrr : r ≠ r') : heapGet (heapSet h r m) r' = heapGet h r' := by
  unfold heapGet heapSet
  exact alGet_alSet_ne _ _ _ _ hrr

/-- C10.  `getAllConnections` returns a defensive copy: the returned Map
is a freshly allocated object distinct from the internal connections map,
it holds a copy of the internal contents, and overwriting the returned
object with arbitrary contents (any sequence of insertions or deletions)
leaves the internal map — and hence the result of every subsequent
orchestrator lookup — unchanged. -/
theorem getAllConnections_defensive_copy (h : MapHeap) (mgr : ManagerH)
    (hwf : heapWF h = true) (hin : mgr.connRef < h.nextRef) :
    (getAllConnections h mgr).2 ≠ mgr.connRef ∧
    heapGet (getAllConnections h mgr).1 mgr.connRef = heapGet h mgr.connRef ∧
    heapGet (getAllConnections h mgr).1 (getAllConnections h mgr).2
      = some ((heapGet h mgr.connRef).getD []) ∧
    (∀ m', heapGet (heapSet (getAllConnections h mgr).1 (getAllConnections h mgr).2 m')
        mgr.connRef = heapGet h mgr.connRef) ∧
    (∀ m' peerId,
      getConnectionH (heapSet (getAllConnections h mgr).1 (getAllConnections h mgr).2 m')
          mgr peerId
        = getConnectionH h mgr peerId) := by
  have hne : h.nextRef ≠ mgr.connRef := fun hh => by omega
  have hget : heapGet (getAllConnections h mgr).1 mgr.connRef = heapGet h mgr.connRef := by
    unfold getAllConnections heapAlloc heapGet
    rw [alGet_append]
    cases hg : alGet h.store mgr.connRef with
    | none => simp [alGet, hne]
    | some m => rfl
  refine ⟨hne, hget, ?_, ?_, ?_⟩
  · unfold getAllConnections heapAlloc heapGet
    rw [alGet_append]
    have hnone : alGet h.store h.nextRef = none := by
      refine alGet_eq_none_of_not_mem _ _ (fun v hv => ?_)
      have := List.all_eq_true.mp hwf _ hv
      simp at this
    rw [hnone]
    simp [alGet]
  · intro m'
    rw [show (getAllConnections h mgr).2 = h.nextRef from rfl,
      heapGet_heapSet_ne _ _ _ _ (fun hh => hne hh), hget]
  · intro m' peerId
    unfold getConnectionH
    rw [show (getAllConnections h mgr).2 = h.nextRef from rfl,
      heapGet_heapSet_ne _ _ _ _ (fun hh => hne hh), hget]

theorem getAllConnections_defensive_copy_witness :
    (getAllConnections ⟨[(0, [("b", ⟨true, true⟩)])], 1⟩ ⟨0⟩).2 ≠ 0 ∧
    heapGet (getAllConnections ⟨[(0, [("b", ⟨true, true⟩)])], 1⟩ ⟨0⟩).1 0
      = heapGet ⟨[(0, [("b", ⟨true, true⟩)])], 1⟩ 0 ∧
    heapGet (getAllConnections ⟨[(0, [("b", ⟨true, true⟩)])], 1⟩ ⟨0⟩).1
        (getAllConnections ⟨[(0, [("b", ⟨true, true⟩)])], 1⟩ ⟨0⟩).2
      = some ((heapGet ⟨[(0, [("b", ⟨true, true⟩)])], 1⟩ 0).getD []) ∧
    (∀ m', heapGet
        (heapSet (getAllConnections ⟨[(0, [("b", ⟨true, true⟩)])], 1⟩ ⟨0⟩).1
          (getAllConnections ⟨[(0, [("b", ⟨true, true⟩)])], 1⟩ ⟨0⟩).2 m') 0
      = heapGet ⟨[(0, [("b", ⟨true, true⟩)])], 1⟩ 0) ∧
    (∀ m' peerId,
      getConnectionH
          (heapSet (getAllConnections ⟨[(0, [("b", ⟨true, true⟩)])], 1⟩ ⟨0⟩).1
            (getAllConnections ⟨[(0, [("b", ⟨true, true⟩)])], 1⟩ ⟨0⟩).2 m') ⟨0⟩ peerId
        = getConnectionH ⟨[(0, [("b", ⟨true, true⟩)])], 1⟩ ⟨0⟩ peerId) :=
  getAllConnections_defensive_copy ⟨[(0, [("b", ⟨true, true⟩)])], 1⟩ ⟨0⟩
    (by decide) (by decide)

end Wiggle
